import Mathlib

/-!
Shallow embedding of the Bundler Gateway subsystem
(src/backend/services/bundler/gateway.py and src/backend/apps/bundler/models.py).

The durable store (Django ORM tables) is modelled as lists of records; each
gateway operation is a pure function from a store to a store plus its return
value.  Timestamps are integers (seconds); `timezone.now()` becomes an explicit
`now` argument.  Row ids (UUIDs in the source) are drawn from a per-store
counter `next_id`.  A Django `save(update_fields=[...])` is modelled by
replacing exactly the listed fields of the row with the given id, which matches
the source because every such update writes only constants or values read from
the snapshot fetched at selection time.
-/

namespace BundlerGateway

/-- Status domain of `UserOperation.Status` (models.py). -/
inductive OpStatus
  | queued
  | dispatched
  | included
  | failed
  | dropped
  deriving DecidableEq

/-- Status domain of `BundlerJob.Status` (models.py). -/
inductive JobStatus
  | queued
  | dispatching
  | succeeded
  | failed
  | retrying
  deriving DecidableEq

/-- A JSON object with string values, as used for `metadata` and event
payloads.  Python dict merge `..., key: v` updates the key in place when it
exists and appends it otherwise. -/
abbrev Dict := List (String × String)

/-- Python dict update with a single key: the semantics of
`metadata = dict(**old, tx_hash=v)` in `mark_included` (gateway.py). -/
def dictSet (m : Dict) (k v : String) : Dict :=
  if m.any (fun p => p.fst == k) then
    m.map (fun p => if p.fst == k then (k, v) else p)
  else m ++ [(k, v)]

/-- Row of the `UserOperation` table (models.py). -/
structure UserOperation where
  id : Nat
  chain_id : Nat
  sender : String
  wallet : Option Nat
  user : Option Nat
  user_op_hash : String
  nonce : String
  call_data : Option String
  call_gas_limit : Int
  verification_gas_limit : Int
  pre_verification_gas : Int
  max_fee_per_gas : Int
  max_priority_fee_per_gas : Int
  paymaster : String
  status : OpStatus
  failure_reason : String
  metadata : Dict
  queued_at : Int
  updated_at : Int
  completed_at : Option Int
  deriving DecidableEq

/-- Row of the `BundlerJob` table (models.py). -/
structure BundlerJob where
  id : Nat
  user_operation : Nat
  target_endpoint : String
  status : JobStatus
  attempt_count : Nat
  priority : Nat
  last_error : String
  enqueued_at : Int
  last_attempt_at : Option Int
  metadata : Dict
  updated_at : Int
  deriving DecidableEq

/-- Row of the `UserOperationEvent` table (models.py). -/
structure UserOperationEvent where
  id : Nat
  user_operation : Nat
  event_type : String
  payload : Dict
  created_at : Int
  deriving DecidableEq

/-- The durable store: the three tables plus the id generator. -/
structure Store where
  ops : List UserOperation
  jobs : List BundlerJob
  events : List UserOperationEvent
  next_id : Nat
  deriving DecidableEq

def emptyStore : Store := { ops := [], jobs := [], events := [], next_id := 0 }

def findOp (s : Store) (oid : Nat) : Option UserOperation :=
  s.ops.find? (fun o => o.id == oid)

def findOpByHash (s : Store) (h : String) : Option UserOperation :=
  s.ops.find? (fun o => o.user_op_hash == h)

def findJob (s : Store) (jid : Nat) : Option BundlerJob :=
  s.jobs.find? (fun j => j.id == jid)

/-- `UserOperation.mark_status` (models.py lines 67-75): set the status,
record a non-empty reason, and stamp `completed_at` when the new status is
terminal.  The `valid_status` fallback never fires here because `OpStatus` is
the enum domain itself. -/
def markStatusOp (now : Int) (o : UserOperation) (status : OpStatus) (reason : String) :
    UserOperation :=
  let o1 := { o with status := status }
  let o2 := if reason = "" then o1 else { o1 with failure_reason := reason }
  let o3 :=
    if status = OpStatus.included ∨ status = OpStatus.failed ∨ status = OpStatus.dropped then
      { o2 with completed_at := some now }
    else o2
  { o3 with updated_at := now }

/-- The `payload` mapping accepted by `queue_operation`; missing gas fields
default to 0 exactly as `int(payload.get(k, 0) or 0)` does. -/
structure OpPayload where
  call_data : Option String := none
  call_gas_limit : Int := 0
  verification_gas_limit : Int := 0
  pre_verification_gas : Int := 0
  max_fee_per_gas : Int := 0
  max_priority_fee_per_gas : Int := 0
  deriving DecidableEq

/-- Return value of `queue_operation` (the `QueuedOperation` dataclass, as
consumed by the router: operation id, its status, and the new job id). -/
structure QueueResult where
  operation_id : Nat
  op_status : OpStatus
  job_id : Nat
  deriving DecidableEq

/-- The fresh row built by `get_or_create` defaults in `queue_operation`. -/
def newOperation (now : Int) (oid : Nat) (chain_id : Nat)
    (sender user_op_hash nonce : String) (payload : OpPayload) (metadata : Dict) :
    UserOperation :=
  { id := oid
    chain_id := chain_id
    sender := sender
    wallet := none
    user := none
    user_op_hash := user_op_hash
    nonce := nonce
    call_data := payload.call_data
    call_gas_limit := payload.call_gas_limit
    verification_gas_limit := payload.verification_gas_limit
    pre_verification_gas := payload.pre_verification_gas
    max_fee_per_gas := payload.max_fee_per_gas
    max_priority_fee_per_gas := payload.max_priority_fee_per_gas
    paymaster := ""
    status := OpStatus.queued
    failure_reason := ""
    metadata := metadata
    queued_at := now
    updated_at := now
    completed_at := none }

/-- The reset applied to an existing non-queued operation on re-ingestion
(gateway.py lines 61-65). -/
def requeueOpUpd (now : Int) (o : UserOperation) : UserOperation :=
  { o with
    status := OpStatus.queued
    failure_reason := ""
    completed_at := none
    updated_at := now }

/-- The initial job row created by one ingestion call (gateway.py 67-71 and
the model defaults of models.py 81-111). -/
def initialJob (now : Int) (jid oid : Nat) (endpoint : String) : BundlerJob :=
  { id := jid
    user_operation := oid
    target_endpoint := endpoint
    status := JobStatus.queued
    attempt_count := 0
    priority := 100
    last_error := ""
    enqueued_at := now
    last_attempt_at := none
    metadata := [("attempt_context", "initial")]
    updated_at := now }

/-- The queued event appended by one ingestion call (gateway.py 73-77). -/
def queuedEvent (now : Int) (eid oid : Nat) (endpoint : String) : UserOperationEvent :=
  { id := eid
    user_operation := oid
    event_type := "queued"
    payload := [("endpoint", endpoint)]
    created_at := now }

/-- `BundlerGatewayService.queue_operation` (gateway.py lines 29-80):
get-or-create the operation by hash, reset it to queued when its status is not
queued, create the initial job, and append a queued event. -/
def queueOperation (now : Int) (chain_id : Nat)
    (sender user_op_hash nonce endpoint : String)
    (payload : OpPayload) (metadata : Dict) (s : Store) : Store × QueueResult :=
  let found := findOpByHash s user_op_hash
  let s1 :=
    match found with
    | some _ => s
    | none =>
        { s with
          ops := s.ops ++ [newOperation now s.next_id chain_id sender user_op_hash nonce
            payload metadata]
          next_id := s.next_id + 1 }
  let op :=
    match found with
    | some o => o
    | none => newOperation now s.next_id chain_id sender user_op_hash nonce payload metadata
  let s2 :=
    if op.status ≠ OpStatus.queued then
      { s1 with
        ops := s1.ops.map (fun o => if o.id == op.id then requeueOpUpd now o else o) }
    else s1
  ({ s2 with
      jobs := s2.jobs ++ [initialJob now s2.next_id op.id endpoint]
      events := s2.events ++ [queuedEvent now (s2.next_id + 1) op.id endpoint]
      next_id := s2.next_id + 2 },
   { operation_id := op.id
     op_status := if op.status ≠ OpStatus.queued then OpStatus.queued else op.status
     job_id := s2.next_id })

/-- Dispatch eligibility: `status__in=[QUEUED, RETRYING]` (gateway.py line 91). -/
def eligibleJob (j : BundlerJob) : Bool :=
  j.status == JobStatus.queued || j.status == JobStatus.retrying

/-- `order_by(priority, enqueued_at)` (gateway.py line 92). -/
def jobLe (a b : BundlerJob) : Prop :=
  a.priority < b.priority ∨ (a.priority = b.priority ∧ a.enqueued_at ≤ b.enqueued_at)

instance : DecidableRel jobLe := fun a b => by
  unfold jobLe; infer_instance

instance : IsTotal BundlerJob jobLe where
  total a b := by
    unfold jobLe
    rcases Nat.lt_trichotomy a.priority b.priority with h | h | h
    · exact Or.inl (Or.inl h)
    · rcases le_total a.enqueued_at b.enqueued_at with h2 | h2
      · exact Or.inl (Or.inr ⟨h, h2⟩)
      · exact Or.inr (Or.inr ⟨h.symm, h2⟩)
    · exact Or.inr (Or.inl h)

instance : IsTrans BundlerJob jobLe where
  trans a b c hab hbc := by
    unfold jobLe at *
    rcases hab with h1 | ⟨h1, h1e⟩ <;> rcases hbc with h2 | ⟨h2, h2e⟩
    · exact Or.inl (h1.trans h2)
    · exact Or.inl (h2 ▸ h1)
    · exact Or.inl (h1 ▸ h2)
    · exact Or.inr ⟨h1.trans h2, h1e.trans h2e⟩

/-- The ordered candidate list of a dispatch call: the eligible jobs sorted by
`(priority, enqueued_at)` and capped at `batch_size` (gateway.py lines 88-93).
Ties are resolved by table order, matching a stable scan. -/
def dispatchCandidates (batch_size : Nat) (s : Store) : List BundlerJob :=
  (List.insertionSort jobLe (s.jobs.filter eligibleJob)).take batch_size

/-- The job-row update performed on a claimed job (gateway.py lines 96-100). -/
def claimJobUpd (now : Int) (j : BundlerJob) : BundlerJob :=
  { j with
    status := JobStatus.dispatching
    attempt_count := j.attempt_count + 1
    last_attempt_at := some now
    last_error := ""
    updated_at := now }

/-- The dispatching event appended for one claimed job (gateway.py 106-110). -/
def claimEvent (now : Int) (eid : Nat) (j : BundlerJob) : UserOperationEvent :=
  { id := eid
    user_operation := j.user_operation
    event_type := "dispatching"
    payload := [("job_id", toString j.id), ("endpoint", j.target_endpoint)]
    created_at := now }

/-- One iteration of the claim loop of `dispatch_batch` (gateway.py 95-110). -/
def claimOne (now : Int) (st : Store) (j : BundlerJob) : Store :=
  { st with
    jobs := st.jobs.map (fun k => if k.id == j.id then claimJobUpd now j else k)
    ops := st.ops.map (fun o =>
      if o.id == j.user_operation then
        { o with status := OpStatus.dispatched, updated_at := now }
      else o)
    events := st.events ++ [claimEvent now st.next_id j]
    next_id := st.next_id + 1 }

/-- Return value of `dispatch_batch`.  The source returns a dict that omits
the `operation_hashes` key entirely when nothing was claimed (gateway.py
112-113); `none` models that absent key. -/
structure DispatchResult where
  count : Nat
  job_ids : List Nat
  operation_hashes : Option (List String)
  deriving DecidableEq

/-- `job.user_operation.user_op_hash` read from the rows joined at selection
time (gateway.py line 119); the hash column is never written by a claim. -/
def opHashFor (s : Store) (oid : Nat) : String :=
  match findOp s oid with
  | some o => o.user_op_hash
  | none => ""

/-- `BundlerGatewayService.dispatch_batch` (gateway.py lines 82-120). -/
def dispatchBatch (now : Int) (batch_size : Nat) (s : Store) : Store × DispatchResult :=
  let claimed := dispatchCandidates batch_size s
  let s2 := claimed.foldl (claimOne now) s
  if claimed.isEmpty then
    (s2, { count := 0, job_ids := [], operation_hashes := none })
  else
    (s2,
     { count := claimed.length
       job_ids := claimed.map (fun j => j.id)
       operation_hashes := some (claimed.map (fun j => opHashFor s j.user_operation)) })

/-- Staleness filter of the reconciler: `status=DISPATCHING` and
`last_attempt_at__lt=cutoff` (gateway.py line 127); a SQL comparison against
NULL is false, so a null `last_attempt_at` is never selected. -/
def staleAt (cutoff : Int) (j : BundlerJob) : Bool :=
  j.status == JobStatus.dispatching &&
    (match j.last_attempt_at with
     | some t => decide (t < cutoff)
     | none => false)

/-- `order_by(last_attempt_at)` (gateway.py line 128). -/
def attemptLe (a b : BundlerJob) : Prop :=
  a.last_attempt_at.getD 0 ≤ b.last_attempt_at.getD 0

instance : DecidableRel attemptLe := fun a b => by
  unfold attemptLe; infer_instance

instance : IsTotal BundlerJob attemptLe where
  total _ _ := le_total _ _

instance : IsTrans BundlerJob attemptLe where
  trans _ _ _ hab hbc := le_trans hab hbc

/-- The in-flight timeout: `timedelta(minutes=5)` in seconds. -/
def staleCutoff (now : Int) : Int := now - 300

/-- The stale jobs examined by one reconciler call: dispatching rows older
than the cutoff, oldest `last_attempt_at` first, capped at `limit`
(gateway.py lines 124-129). -/
def staleSelection (now : Int) (limit : Nat) (s : Store) : List BundlerJob :=
  (List.insertionSort attemptLe (s.jobs.filter (staleAt (staleCutoff now)))).take limit

/-- The retained-or-default failure reason (gateway.py line 141). -/
def failReason (j : BundlerJob) : String :=
  if j.last_error = "" then "Dispatch attempts exceeded" else j.last_error

/-- Failure escalation for one stale job (gateway.py lines 139-150). -/
def failJob (now : Int) (st : Store) (j : BundlerJob) : Store :=
  { st with
    jobs := st.jobs.map (fun k =>
      if k.id == j.id then
        { j with status := JobStatus.failed, last_error := failReason j, updated_at := now }
      else k)
    ops := st.ops.map (fun o =>
      if o.id == j.user_operation then markStatusOp now o OpStatus.failed (failReason j)
      else o)
    events := st.events ++
      [{ id := st.next_id
         user_operation := j.user_operation
         event_type := "failed"
         payload := [("job_id", toString j.id), ("reason", failReason j)]
         created_at := now }]
    next_id := st.next_id + 1 }

/-- Requeue of one stale job under the retry limit (gateway.py lines 152-161).
The operation save lists only `status` and `updated_at`, so `completed_at` and
`failure_reason` keep their current values. -/
def requeueJob (now : Int) (st : Store) (j : BundlerJob) : Store :=
  { st with
    jobs := st.jobs.map (fun k =>
      if k.id == j.id then { j with status := JobStatus.retrying, updated_at := now } else k)
    ops := st.ops.map (fun o =>
      if o.id == j.user_operation then
        { o with status := OpStatus.queued, updated_at := now }
      else o)
    events := st.events ++
      [{ id := st.next_id
         user_operation := j.user_operation
         event_type := "requeued"
         payload := [("job_id", toString j.id)]
         created_at := now }]
    next_id := st.next_id + 1 }

/-- One iteration of the reconciler loop (gateway.py lines 138-161). -/
def reconcileStep (now : Int) (st : Store) (j : BundlerJob) : Store :=
  if 3 ≤ j.attempt_count then failJob now st j else requeueJob now st j

/-- Return value of `reconcile_inflight`. -/
structure ReconcileResult where
  processed : Nat
  requeued : Nat
  failed : Nat
  deriving DecidableEq

/-- `BundlerGatewayService.reconcile_inflight` (gateway.py lines 122-169). -/
def reconcileInflight (now : Int) (limit : Nat) (s : Store) : Store × ReconcileResult :=
  let stale := staleSelection now limit s
  if stale.isEmpty then
    (s, { processed := 0, requeued := 0, failed := 0 })
  else
    (stale.foldl (reconcileStep now) s,
     { processed := stale.length
       requeued := (stale.filter (fun j => decide (j.attempt_count < 3))).length
       failed := (stale.filter (fun j => decide (3 ≤ j.attempt_count))).length })

/-- Outcome of `mark_included`: either success, or the `DoesNotExist` the
router maps to HTTP 404 (routers/bundler.py lines 331-334). -/
inductive MarkOutcome
  | success
  | notFound
  deriving DecidableEq

/-- `BundlerGatewayService.mark_included` (gateway.py lines 171-195). -/
def markIncluded (now : Int) (job_id : Nat) (tx_hash : String) (s : Store) :
    Store × MarkOutcome :=
  match findJob s job_id with
  | none => (s, MarkOutcome.notFound)
  | some job =>
    match findOp s job.user_operation with
    | none => (s, MarkOutcome.notFound)
    | some op =>
      let job2 := { job with status := JobStatus.succeeded, last_error := "", updated_at := now }
      let op2 :=
        { op with
          status := OpStatus.included
          metadata := dictSet op.metadata "tx_hash" tx_hash
          completed_at := some now
          updated_at := now }
      let ev : UserOperationEvent :=
        { id := s.next_id
          user_operation := op.id
          event_type := "included"
          payload := [("job_id", toString job.id), ("tx_hash", tx_hash)]
          created_at := now }
      ({ s with
          jobs := s.jobs.map (fun k => if k.id == job.id then job2 else k)
          ops := s.ops.map (fun o => if o.id == op.id then op2 else o)
          events := s.events ++ [ev]
          next_id := s.next_id + 1 },
       MarkOutcome.success)

/-- One public gateway call, as exposed by the facade. -/
inductive Step : Store → Store → Prop
  | queue (now : Int) (chain_id : Nat) (sender user_op_hash nonce endpoint : String)
      (payload : OpPayload) (metadata : Dict) (s : Store) :
      Step s (queueOperation now chain_id sender user_op_hash nonce endpoint payload metadata
        s).fst
  | dispatch (now : Int) (batch_size : Nat) (s : Store) :
      Step s (dispatchBatch now batch_size s).fst
  | reconcile (now : Int) (limit : Nat) (s : Store) :
      Step s (reconcileInflight now limit s).fst
  | mark (now : Int) (job_id : Nat) (tx_hash : String) (s : Store) :
      Step s (markIncluded now job_id tx_hash s).fst

/-- Stores reachable from the empty store by gateway calls. -/
inductive Reachable : Store → Prop
  | init : Reachable emptyStore
  | next {s t : Store} : Reachable s → Step s t → Reachable t

/-- Store well-formedness: distinct row ids below the id counter, the hash
uniqueness constraint on operations, and foreign-key integrity of jobs. -/
def Wf (s : Store) : Prop :=
  (s.ops.map (fun o => o.id)).Nodup ∧
  (s.jobs.map (fun j => j.id)).Nodup ∧
  s.ops.Pairwise (fun a b => a.user_op_hash ≠ b.user_op_hash) ∧
  (∀ o ∈ s.ops, o.id < s.next_id) ∧
  (∀ j ∈ s.jobs, j.id < s.next_id) ∧
  (∀ j ∈ s.jobs, ∃ o ∈ s.ops, o.id = j.user_operation)

instance (s : Store) : Decidable (Wf s) := by
  unfold Wf; infer_instance

end BundlerGateway


namespace BundlerGateway

/-! Helper definitions used to characterise the loops of `dispatch_batch` and
`reconcile_inflight` as whole-store transformations. -/

/-- The events appended by a processed batch, with ids drawn consecutively
from `base`. -/
def eventsFrom (f : Nat → BundlerJob → UserOperationEvent) (base : Nat) :
    List BundlerJob → List UserOperationEvent
  | [] => []
  | j :: T => f base j :: eventsFrom f (base + 1) T

/-- The row update applied to one stale job by the reconciler. -/
def reconJobUpd (now : Int) (j : BundlerJob) : BundlerJob :=
  if 3 ≤ j.attempt_count then
    { j with status := JobStatus.failed, last_error := failReason j, updated_at := now }
  else
    { j with status := JobStatus.retrying, updated_at := now }

/-- The operation update applied when one stale job is processed. -/
def reconOpUpd (now : Int) (j : BundlerJob) (o : UserOperation) : UserOperation :=
  if 3 ≤ j.attempt_count then markStatusOp now o OpStatus.failed (failReason j)
  else { o with status := OpStatus.queued, updated_at := now }

/-- The event appended when one stale job is processed. -/
def reconEvent (now : Int) (eid : Nat) (j : BundlerJob) : UserOperationEvent :=
  if 3 ≤ j.attempt_count then
    { id := eid
      user_operation := j.user_operation
      event_type := "failed"
      payload := [("job_id", toString j.id), ("reason", failReason j)]
      created_at := now }
  else
    { id := eid
      user_operation := j.user_operation
      event_type := "requeued"
      payload := [("job_id", toString j.id)]
      created_at := now }

/-- Net effect of a whole reconciler batch on one operation row: each
processed job referencing it applies its update in processing order, so the
last sibling wins. -/
def applyReconOps (now : Int) (L : List BundlerJob) (o : UserOperation) : UserOperation :=
  L.foldl (fun acc j => if acc.id == j.user_operation then reconOpUpd now j acc else acc) o

/-- Net effect of a whole dispatch batch on one job row. -/
def applyClaimJobs (now : Int) (L : List BundlerJob) (k : BundlerJob) : BundlerJob :=
  match L.find? (fun j => k.id == j.id) with
  | some j => claimJobUpd now j
  | none => k

/-- Net effect of a whole dispatch batch on one operation row. -/
def applyClaimOps (now : Int) (L : List BundlerJob) (o : UserOperation) : UserOperation :=
  if L.any (fun j => o.id == j.user_operation) then
    { o with status := OpStatus.dispatched, updated_at := now }
  else o

/-- Net effect of a whole reconciler batch on one job row. -/
def applyReconJobs (now : Int) (L : List BundlerJob) (k : BundlerJob) : BundlerJob :=
  match L.find? (fun j => k.id == j.id) with
  | some j => reconJobUpd now j
  | none => k

/-! Concrete stores used as witnesses and counterexamples. -/

/-- A fixed ingestion call used in the concrete traces. -/
def queueCX (now : Int) (metadata : Dict) (s : Store) : Store :=
  (queueOperation now 4202 "0xSENDER" "0xHASH" "1" "https://bundler.mock/rpc"
    {} metadata s).fst

/-- Trace A: ingest twice, dispatch the first job, mark it included, then
dispatch the second job.  Exhibits a dispatched operation with a set
`completed_at` and an included operation pushed back out of its terminal
status. -/
def cxA1 : Store := queueCX 0 [("source", "test")] emptyStore
def cxA2 : Store := queueCX 1 [("source", "test")] cxA1
def cxA3 : Store := (dispatchBatch 2 1 cxA2).fst
def cxA4 : Store := (markIncluded 3 1 "0xTX" cxA3).fst
def cxA5 : Store := (dispatchBatch 4 1 cxA4).fst

/-- Trace B: one job exhausts its three attempts, a re-ingested sibling is
dispatched, and a final reconcile processes the exhausted job first and the
fresh sibling second, leaving the operation `queued` instead of `failed`. -/
def cxB1 : Store := queueCX 0 [] emptyStore
def cxB2 : Store := (dispatchBatch 10 1 cxB1).fst
def cxB3 : Store := (reconcileInflight 1000 5 cxB2).fst
def cxB4 : Store := (dispatchBatch 1010 1 cxB3).fst
def cxB5 : Store := (reconcileInflight 2000 5 cxB4).fst
def cxB6 : Store := (dispatchBatch 2010 1 cxB5).fst
def cxB7 : Store := queueCX 2020 [] cxB6
def cxB8 : Store := (dispatchBatch 2030 1 cxB7).fst
def cxB9 : Store := (reconcileInflight 3000 5 cxB8).fst

/-- Trace C: interleaves two sibling jobs so that the final reconcile
requeues the younger-attempt job first and fails the exhausted one second,
leaving the operation `failed` although a job was requeued. -/
def cxC1 : Store := queueCX 0 [] emptyStore
def cxC2 : Store := (dispatchBatch 1 1 cxC1).fst
def cxC3 : Store := queueCX 2 [] cxC2
def cxC4 : Store := (dispatchBatch 3 1 cxC3).fst
def cxC5 : Store := (reconcileInflight 400 5 cxC4).fst
def cxC6 : Store := (dispatchBatch 401 2 cxC5).fst
def cxC7 : Store := (reconcileInflight 800 1 cxC6).fst
def cxC8 : Store := (dispatchBatch 801 1 cxC7).fst
def cxC9 : Store := (reconcileInflight 1200 5 cxC8).fst

/-- Trace D: ingest with a metadata map that already binds `tx_hash`, dispatch
and mark included with a different transaction hash: the old value is
overwritten. -/
def cxD1 : Store := queueCX 0 [("tx_hash", "0xOLD")] emptyStore
def cxD2 : Store := (dispatchBatch 1 1 cxD1).fst
def cxD3 : Store := (markIncluded 2 1 "0xNEW" cxD2).fst

end BundlerGateway

namespace BundlerGateway

/-! Projection lemmas for the row-update helpers. -/

theorem markStatusOp_id (now : Int) (o : UserOperation) (st : OpStatus) (r : String) :
    (markStatusOp now o st r).id = o.id := by
  unfold markStatusOp
  dsimp only
  split <;> split <;> rfl

theorem markStatusOp_hash (now : Int) (o : UserOperation) (st : OpStatus) (r : String) :
    (markStatusOp now o st r).user_op_hash = o.user_op_hash := by
  unfold markStatusOp
  dsimp only
  split <;> split <;> rfl

theorem markStatusOp_status (now : Int) (o : UserOperation) (st : OpStatus) (r : String) :
    (markStatusOp now o st r).status = st := by
  unfold markStatusOp
  dsimp only
  split <;> split <;> rfl

theorem markStatusOp_failure_reason (now : Int) (o : UserOperation) (st : OpStatus)
    (r : String) :
    (markStatusOp now o st r).failure_reason = if r = "" then o.failure_reason else r := by
  unfold markStatusOp
  dsimp only
  split <;> split <;> rfl

theorem markStatusOp_completed_at (now : Int) (o : UserOperation) (st : OpStatus)
    (r : String) :
    (markStatusOp now o st r).completed_at =
      if st = OpStatus.included ∨ st = OpStatus.failed ∨ st = OpStatus.dropped then some now
      else o.completed_at := by
  unfold markStatusOp
  dsimp only
  split <;> split <;> rfl

theorem reconJobUpd_id (now : Int) (j : BundlerJob) : (reconJobUpd now j).id = j.id := by
  unfold reconJobUpd
  split <;> rfl

theorem reconJobUpd_user_operation (now : Int) (j : BundlerJob) :
    (reconJobUpd now j).user_operation = j.user_operation := by
  unfold reconJobUpd
  split <;> rfl

theorem reconOpUpd_id (now : Int) (j : BundlerJob) (o : UserOperation) :
    (reconOpUpd now j o).id = o.id := by
  unfold reconOpUpd
  split
  · exact markStatusOp_id now o OpStatus.failed (failReason j)
  · rfl

theorem reconOpUpd_hash (now : Int) (j : BundlerJob) (o : UserOperation) :
    (reconOpUpd now j o).user_op_hash = o.user_op_hash := by
  unfold reconOpUpd
  split
  · exact markStatusOp_hash now o OpStatus.failed (failReason j)
  · rfl

/-- The branch taken in the reconciler loop, written as one uniform update. -/
theorem reconcileStep_eq (now : Int) (st : Store) (j : BundlerJob) :
    reconcileStep now st j =
      { st with
        jobs := st.jobs.map (fun k => if k.id == j.id then reconJobUpd now j else k)
        ops := st.ops.map (fun o =>
          if o.id == j.user_operation then reconOpUpd now j o else o)
        events := st.events ++ [reconEvent now st.next_id j]
        next_id := st.next_id + 1 } := by
  by_cases h : 3 ≤ j.attempt_count
  · simp only [reconcileStep, if_pos h, failJob, reconJobUpd, reconOpUpd, reconEvent,
      if_pos h]
  · simp only [reconcileStep, if_neg h, requeueJob, reconJobUpd, reconOpUpd, reconEvent,
      if_neg h]

end BundlerGateway

namespace BundlerGateway

/-! Whole-batch characterisations of the two processing loops. -/

theorem claimJobUpd_id (now : Int) (j : BundlerJob) : (claimJobUpd now j).id = j.id := rfl

theorem claim_ops_pointwise (now : Int) (j : BundlerJob) (T : List BundlerJob)
    (o : UserOperation) :
    applyClaimOps now T
      (if o.id == j.user_operation then
        { o with status := OpStatus.dispatched, updated_at := now }
      else o) = applyClaimOps now (j :: T) o := by
  unfold applyClaimOps
  by_cases h : (o.id == j.user_operation) = true
  · rw [if_pos h]
    by_cases h2 : (T.any fun x =>
        ({ o with status := OpStatus.dispatched, updated_at := now } : UserOperation).id ==
          x.user_operation) = true
    · rw [if_pos h2, List.any_cons, h, Bool.true_or, if_pos rfl]
    · rw [if_neg h2, List.any_cons, h, Bool.true_or, if_pos rfl]
  · rw [if_neg h, List.any_cons, Bool.eq_false_iff.mpr h, Bool.false_or]

theorem claim_jobs_pointwise (now : Int) (j : BundlerJob) (T : List BundlerJob)
    (k : BundlerJob) (hj : j.id ∉ T.map (fun x => x.id)) :
    applyClaimJobs now T (if k.id == j.id then claimJobUpd now j else k) =
      applyClaimJobs now (j :: T) k := by
  unfold applyClaimJobs
  by_cases h : (k.id == j.id) = true
  · rw [if_pos h]
    have hnone : T.find? (fun x => (claimJobUpd now j).id == x.id) = none := by
      rw [List.find?_eq_none]
      intro x hx hbeq
      rw [claimJobUpd_id] at hbeq
      exact hj (List.mem_map.mpr ⟨x, hx, (eq_of_beq hbeq).symm⟩)
    rw [hnone, @List.find?_cons_of_pos _ (fun x => k.id == x.id) j T h]
  · rw [if_neg h, @List.find?_cons_of_neg _ (fun x => k.id == x.id) j T h]

theorem recon_jobs_pointwise (now : Int) (j : BundlerJob) (T : List BundlerJob)
    (k : BundlerJob) (hj : j.id ∉ T.map (fun x => x.id)) :
    applyReconJobs now T (if k.id == j.id then reconJobUpd now j else k) =
      applyReconJobs now (j :: T) k := by
  unfold applyReconJobs
  by_cases h : (k.id == j.id) = true
  · rw [if_pos h]
    have hnone : T.find? (fun x => (reconJobUpd now j).id == x.id) = none := by
      rw [List.find?_eq_none]
      intro x hx hbeq
      rw [reconJobUpd_id] at hbeq
      exact hj (List.mem_map.mpr ⟨x, hx, (eq_of_beq hbeq).symm⟩)
    rw [hnone, @List.find?_cons_of_pos _ (fun x => k.id == x.id) j T h]
  · rw [if_neg h, @List.find?_cons_of_neg _ (fun x => k.id == x.id) j T h]

theorem claim_foldl (now : Int) (L : List BundlerJob) (s : Store)
    (hnd : (L.map (fun j => j.id)).Nodup) :
    L.foldl (claimOne now) s =
      { ops := s.ops.map (applyClaimOps now L)
        jobs := s.jobs.map (applyClaimJobs now L)
        events := s.events ++ eventsFrom (claimEvent now) s.next_id L
        next_id := s.next_id + L.length } := by
  induction L generalizing s with
  | nil =>
      have hops : applyClaimOps now [] = fun o => o := funext fun o => by
        simp [applyClaimOps]
      have hjobs : applyClaimJobs now [] = fun k => k := funext fun k => by
        simp [applyClaimJobs]
      simp only [List.foldl_nil, hops, hjobs, eventsFrom, List.map_id',
        List.append_nil, List.length_nil, Nat.add_zero]
  | cons j T ih =>
      rw [List.map_cons, List.nodup_cons] at hnd
      obtain ⟨hj, hT⟩ := hnd
      rw [List.foldl_cons, ih _ hT]
      unfold claimOne
      dsimp only
      congr 1
      · rw [List.map_map]
        exact List.map_congr_left (fun o _ => claim_ops_pointwise now j T o)
      · rw [List.map_map]
        exact List.map_congr_left (fun k _ => claim_jobs_pointwise now j T k hj)
      · rw [List.append_assoc]
        rfl
      · rw [List.length_cons]
        omega

theorem recon_foldl (now : Int) (L : List BundlerJob) (s : Store)
    (hnd : (L.map (fun j => j.id)).Nodup) :
    L.foldl (reconcileStep now) s =
      { ops := s.ops.map (applyReconOps now L)
        jobs := s.jobs.map (applyReconJobs now L)
        events := s.events ++ eventsFrom (reconEvent now) s.next_id L
        next_id := s.next_id + L.length } := by
  induction L generalizing s with
  | nil =>
      have hops : applyReconOps now [] = fun o => o := funext fun o => by
        simp [applyReconOps]
      have hjobs : applyReconJobs now [] = fun k => k := funext fun k => by
        simp [applyReconJobs]
      simp only [List.foldl_nil, hops, hjobs, eventsFrom, List.map_id',
        List.append_nil, List.length_nil, Nat.add_zero]
  | cons j T ih =>
      rw [List.map_cons, List.nodup_cons] at hnd
      obtain ⟨hj, hT⟩ := hnd
      rw [List.foldl_cons, reconcileStep_eq, ih _ hT]
      dsimp only
      congr 1
      · rw [List.map_map]
        refine List.map_congr_left (fun o _ => ?_)
        rfl
      · rw [List.map_map]
        exact List.map_congr_left (fun k _ => recon_jobs_pointwise now j T k hj)
      · rw [List.append_assoc]
        rfl
      · rw [List.length_cons]
        omega

end BundlerGateway

namespace BundlerGateway

/-! Properties of the sorted, capped candidate selections. -/

section SortSelect

variable {α : Type} {β : Type} (r : α → α → Prop) [DecidableRel r]

theorem selTake_subset {l : List α} {n : Nat} : ((List.insertionSort r l).take n) ⊆ l :=
  fun _ hx => (List.perm_insertionSort r l).subset ((List.take_sublist n _).subset hx)

theorem selTake_length (l : List α) (n : Nat) :
    ((List.insertionSort r l).take n).length = min n l.length := by
  rw [List.length_take, List.length_insertionSort]

theorem selTake_pairwise [IsTotal α r] [IsTrans α r] (l : List α) (n : Nat) :
    ((List.insertionSort r l).take n).Pairwise r :=
  List.Pairwise.sublist (List.take_sublist n _) (List.sorted_insertionSort r l)

theorem selTake_min [IsTotal α r] [IsTrans α r] {l : List α} {n : Nat} {x y : α}
    (hx : x ∈ (List.insertionSort r l).take n) (hy : y ∈ l)
    (hny : y ∉ (List.insertionSort r l).take n) : r x y := by
  have hy2 : y ∈ List.insertionSort r l := (List.perm_insertionSort r l).mem_iff.mpr hy
  rw [← List.take_append_drop n (List.insertionSort r l)] at hy2
  rcases List.mem_append.mp hy2 with h | h
  · exact absurd h hny
  · have hp : ((List.insertionSort r l).take n ++ (List.insertionSort r l).drop n).Pairwise
        r := by
      rw [List.take_append_drop n (List.insertionSort r l)]
      exact List.sorted_insertionSort r l
    exact (List.pairwise_append.mp hp).2.2 x hx y h

theorem selTake_all {l : List α} {n : Nat} (h : l.length ≤ n) :
    ((List.insertionSort r l).take n).Perm l := by
  rw [List.take_of_length_le (by rw [List.length_insertionSort]; exact h)]
  exact List.perm_insertionSort r l

theorem selTake_nodup_map (f : α → β) {l : List α} {n : Nat} (h : (l.map f).Nodup) :
    (((List.insertionSort r l).take n).map f).Nodup :=
  List.Nodup.sublist ((List.take_sublist n _).map f)
    (((List.perm_insertionSort r l).map f).nodup_iff.mpr h)

end SortSelect

theorem dispatchCandidates_mem {b : Nat} {s : Store} {j : BundlerJob}
    (hj : j ∈ dispatchCandidates b s) : j ∈ s.jobs ∧ eligibleJob j = true := by
  have h2 : j ∈ s.jobs.filter eligibleJob := selTake_subset jobLe hj
  exact List.mem_filter.mp h2

theorem dispatchCandidates_idNodup {b : Nat} {s : Store}
    (hnd : (s.jobs.map (fun j => j.id)).Nodup) :
    ((dispatchCandidates b s).map (fun j => j.id)).Nodup :=
  selTake_nodup_map jobLe (fun j => j.id)
    (List.Nodup.sublist ((List.filter_sublist s.jobs).map (fun j => j.id)) hnd)

theorem dispatchCandidates_length (b : Nat) (s : Store) :
    (dispatchCandidates b s).length = min b (s.jobs.filter eligibleJob).length :=
  selTake_length jobLe (s.jobs.filter eligibleJob) b

theorem dispatchCandidates_pairwise (b : Nat) (s : Store) :
    (dispatchCandidates b s).Pairwise jobLe :=
  selTake_pairwise jobLe (s.jobs.filter eligibleJob) b

theorem dispatchCandidates_min {b : Nat} {s : Store} {x y : BundlerJob}
    (hx : x ∈ dispatchCandidates b s) (hy : y ∈ s.jobs) (hye : eligibleJob y = true)
    (hny : y ∉ dispatchCandidates b s) : jobLe x y :=
  selTake_min jobLe hx (List.mem_filter.mpr ⟨hy, hye⟩) hny

theorem dispatchCandidates_all {b : Nat} {s : Store}
    (h : (s.jobs.filter eligibleJob).length ≤ b) :
    (dispatchCandidates b s).Perm (s.jobs.filter eligibleJob) :=
  selTake_all jobLe h

theorem staleSelection_mem {now : Int} {limit : Nat} {s : Store} {j : BundlerJob}
    (hj : j ∈ staleSelection now limit s) :
    j ∈ s.jobs ∧ staleAt (staleCutoff now) j = true := by
  have h2 : j ∈ s.jobs.filter (staleAt (staleCutoff now)) := selTake_subset attemptLe hj
  exact List.mem_filter.mp h2

theorem staleSelection_idNodup {now : Int} {limit : Nat} {s : Store}
    (hnd : (s.jobs.map (fun j => j.id)).Nodup) :
    ((staleSelection now limit s).map (fun j => j.id)).Nodup :=
  selTake_nodup_map attemptLe (fun j => j.id)
    (List.Nodup.sublist ((List.filter_sublist s.jobs).map (fun j => j.id)) hnd)

theorem staleSelection_length (now : Int) (limit : Nat) (s : Store) :
    (staleSelection now limit s).length =
      min limit (s.jobs.filter (staleAt (staleCutoff now))).length :=
  selTake_length attemptLe (s.jobs.filter (staleAt (staleCutoff now))) limit

theorem staleSelection_pairwise (now : Int) (limit : Nat) (s : Store) :
    (staleSelection now limit s).Pairwise attemptLe :=
  selTake_pairwise attemptLe (s.jobs.filter (staleAt (staleCutoff now))) limit

theorem staleSelection_min {now : Int} {limit : Nat} {s : Store} {x y : BundlerJob}
    (hx : x ∈ staleSelection now limit s) (hy : y ∈ s.jobs)
    (hye : staleAt (staleCutoff now) y = true) (hny : y ∉ staleSelection now limit s) :
    attemptLe x y :=
  selTake_min attemptLe hx (List.mem_filter.mpr ⟨hy, hye⟩) hny

end BundlerGateway

namespace BundlerGateway

/-! Case characterisations of `queueOperation` and `markIncluded`, and the
store components of `dispatchBatch` and `reconcileInflight`. -/

theorem queueOperation_none {s : Store} {uh : String}
    (h : findOpByHash s uh = none) (now : Int) (cid : Nat)
    (sender nonce ep : String) (p : OpPayload) (m : Dict) :
    queueOperation now cid sender uh nonce ep p m s =
      ({ ops := s.ops ++ [newOperation now s.next_id cid sender uh nonce p m]
         jobs := s.jobs ++ [initialJob now (s.next_id + 1) s.next_id ep]
         events := s.events ++ [queuedEvent now (s.next_id + 2) s.next_id ep]
         next_id := s.next_id + 3 },
       { operation_id := s.next_id, op_status := OpStatus.queued, job_id := s.next_id + 1 }) := by
  unfold queueOperation
  rw [h]
  rfl

theorem queueOperation_found_queued {s : Store} {uh : String} {o : UserOperation}
    (h : findOpByHash s uh = some o) (hq : o.status = OpStatus.queued) (now : Int)
    (cid : Nat) (sender nonce ep : String) (p : OpPayload) (m : Dict) :
    queueOperation now cid sender uh nonce ep p m s =
      ({ s with
         jobs := s.jobs ++ [initialJob now s.next_id o.id ep]
         events := s.events ++ [queuedEvent now (s.next_id + 1) o.id ep]
         next_id := s.next_id + 2 },
       { operation_id := o.id, op_status := OpStatus.queued, job_id := s.next_id }) := by
  unfold queueOperation
  rw [h]
  dsimp only
  rw [if_neg (by rw [hq]; exact fun hc => hc rfl), if_neg (by rw [hq]; exact fun hc => hc rfl)]
  rw [hq]

theorem queueOperation_found_reset {s : Store} {uh : String} {o : UserOperation}
    (h : findOpByHash s uh = some o) (hq : o.status ≠ OpStatus.queued) (now : Int)
    (cid : Nat) (sender nonce ep : String) (p : OpPayload) (m : Dict) :
    queueOperation now cid sender uh nonce ep p m s =
      ({ ops := s.ops.map (fun x => if x.id == o.id then requeueOpUpd now x else x)
         jobs := s.jobs ++ [initialJob now s.next_id o.id ep]
         events := s.events ++ [queuedEvent now (s.next_id + 1) o.id ep]
         next_id := s.next_id + 2 },
       { operation_id := o.id, op_status := OpStatus.queued, job_id := s.next_id }) := by
  unfold queueOperation
  rw [h]
  dsimp only
  rw [if_pos hq, if_pos hq]

theorem dispatchBatch_fst (now : Int) (b : Nat) (s : Store) :
    (dispatchBatch now b s).fst = (dispatchCandidates b s).foldl (claimOne now) s := by
  unfold dispatchBatch
  dsimp only
  split <;> rfl

theorem reconcileInflight_fst (now : Int) (limit : Nat) (s : Store) :
    (reconcileInflight now limit s).fst = (staleSelection now limit s).foldl
      (reconcileStep now) s := by
  unfold reconcileInflight
  dsimp only
  split
  · rename_i hemp
    rw [List.isEmpty_iff.mp hemp]
    rfl
  · rfl

theorem markIncluded_jobNone {s : Store} {jid : Nat} (h : findJob s jid = none)
    (now : Int) (tx : String) :
    markIncluded now jid tx s = (s, MarkOutcome.notFound) := by
  unfold markIncluded
  rw [h]

theorem markIncluded_found {s : Store} {jid : Nat} {job : BundlerJob} {op : UserOperation}
    (hj : findJob s jid = some job) (ho : findOp s job.user_operation = some op)
    (now : Int) (tx : String) :
    markIncluded now jid tx s =
      ({ s with
         jobs := s.jobs.map (fun k =>
           if k.id == job.id then
             { job with status := JobStatus.succeeded, last_error := "", updated_at := now }
           else k)
         ops := s.ops.map (fun o =>
           if o.id == op.id then
             { op with
               status := OpStatus.included
               metadata := dictSet op.metadata "tx_hash" tx
               completed_at := some now
               updated_at := now }
           else o)
         events := s.events ++
           [{ id := s.next_id
              user_operation := op.id
              event_type := "included"
              payload := [("job_id", toString job.id), ("tx_hash", tx)]
              created_at := now }]
         next_id := s.next_id + 1 },
       MarkOutcome.success) := by
  unfold markIncluded
  rw [hj]
  dsimp only
  rw [ho]

end BundlerGateway

namespace BundlerGateway

theorem markIncluded_opNone {s : Store} {jid : Nat} {job : BundlerJob}
    (hj : findJob s jid = some job) (ho : findOp s job.user_operation = none)
    (now : Int) (tx : String) :
    markIncluded now jid tx s = (s, MarkOutcome.notFound) := by
  unfold markIncluded
  rw [hj]
  dsimp only
  rw [ho]

/-! Preservation of store well-formedness by every gateway call. -/

theorem applyClaimOps_id (now : Int) (L : List BundlerJob) (o : UserOperation) :
    (applyClaimOps now L o).id = o.id := by
  unfold applyClaimOps
  split <;> rfl

theorem applyClaimOps_hash (now : Int) (L : List BundlerJob) (o : UserOperation) :
    (applyClaimOps now L o).user_op_hash = o.user_op_hash := by
  unfold applyClaimOps
  split <;> rfl

theorem applyReconOps_id (now : Int) (L : List BundlerJob) (o : UserOperation) :
    (applyReconOps now L o).id = o.id := by
  induction L generalizing o with
  | nil => rfl
  | cons j T ih =>
      unfold applyReconOps
      rw [List.foldl_cons]
      have : ∀ x : UserOperation,
          List.foldl (fun acc k => if acc.id == k.user_operation then reconOpUpd now k acc
            else acc) x T = applyReconOps now T x := fun x => rfl
      rw [this, ih]
      split
      · rw [reconOpUpd_id]
      · rfl

theorem applyReconOps_hash (now : Int) (L : List BundlerJob) (o : UserOperation) :
    (applyReconOps now L o).user_op_hash = o.user_op_hash := by
  induction L generalizing o with
  | nil => rfl
  | cons j T ih =>
      unfold applyReconOps
      rw [List.foldl_cons]
      have : ∀ x : UserOperation,
          List.foldl (fun acc k => if acc.id == k.user_operation then reconOpUpd now k acc
            else acc) x T = applyReconOps now T x := fun x => rfl
      rw [this, ih]
      split
      · rw [reconOpUpd_hash]
      · rfl

theorem applyClaimJobs_id (now : Int) (L : List BundlerJob) (k : BundlerJob) :
    (applyClaimJobs now L k).id = k.id := by
  unfold applyClaimJobs
  cases hf : L.find? (fun j => k.id == j.id) with
  | none => rfl
  | some j =>
      have := List.find?_some hf
      rw [claimJobUpd_id]
      exact (eq_of_beq this).symm

theorem applyReconJobs_id (now : Int) (L : List BundlerJob) (k : BundlerJob) :
    (applyReconJobs now L k).id = k.id := by
  unfold applyReconJobs
  cases hf : L.find? (fun j => k.id == j.id) with
  | none => rfl
  | some j =>
      have := List.find?_some hf
      rw [reconJobUpd_id]
      exact (eq_of_beq this).symm

/-- A job row after a batch is either untouched or the update of a processed
snapshot. -/
theorem applyClaimJobs_cases (now : Int) (L : List BundlerJob) (k : BundlerJob) :
    applyClaimJobs now L k = k ∨
      ∃ j ∈ L, applyClaimJobs now L k = claimJobUpd now j := by
  unfold applyClaimJobs
  cases hf : L.find? (fun j => k.id == j.id) with
  | none => exact Or.inl rfl
  | some j => exact Or.inr ⟨j, List.mem_of_find?_eq_some hf, rfl⟩

theorem applyReconJobs_cases (now : Int) (L : List BundlerJob) (k : BundlerJob) :
    applyReconJobs now L k = k ∨
      ∃ j ∈ L, applyReconJobs now L k = reconJobUpd now j := by
  unfold applyReconJobs
  cases hf : L.find? (fun j => k.id == j.id) with
  | none => exact Or.inl rfl
  | some j => exact Or.inr ⟨j, List.mem_of_find?_eq_some hf, rfl⟩

theorem claimJobUpd_user_operation (now : Int) (j : BundlerJob) :
    (claimJobUpd now j).user_operation = j.user_operation := rfl

/-- Mapping a row-update that preserves a key leaves the mapped keys
unchanged. -/
theorem map_key_eq {α β : Type} (f : α → α) (key : α → β) (l : List α)
    (hf : ∀ x, key (f x) = key x) : (l.map f).map key = l.map key := by
  rw [List.map_map]
  exact List.map_congr_left (fun x _ => hf x)

theorem nodup_append_singleton {α : Type} {l : List α} {a : α} (h : l.Nodup)
    (ha : a ∉ l) : (l ++ [a]).Nodup := by
  rw [List.nodup_append]
  exact ⟨h, List.nodup_singleton a, by
    intro x hx
    simp only [List.mem_singleton]
    intro hxa
    exact ha (hxa ▸ hx)⟩

theorem pairwise_append_singleton {α : Type} {P : α → α → Prop} {l : List α} {a : α}
    (h : l.Pairwise P) (ha : ∀ x ∈ l, P x a) : (l ++ [a]).Pairwise P := by
  rw [List.pairwise_append]
  exact ⟨h, List.pairwise_singleton P a, by
    intro x hx y hy
    rw [List.mem_singleton] at hy
    exact hy ▸ ha x hx⟩

end BundlerGateway

namespace BundlerGateway

theorem map_key_eq_mem {α β : Type} (f : α → α) (key : α → β) (l : List α)
    (hf : ∀ x ∈ l, key (f x) = key x) : (l.map f).map key = l.map key := by
  rw [List.map_map]
  exact List.map_congr_left (fun x hx => hf x hx)

/-- Well-formedness is preserved by any row-mapping store transformation whose
operation update preserves ids and hashes and whose job update preserves ids
and keeps foreign keys resolvable. -/
theorem wf_mapped {s : Store} (h : Wf s) (F : UserOperation → UserOperation)
    (G : BundlerJob → BundlerJob) (E : List UserOperationEvent) (n : Nat)
    (hFid : ∀ o ∈ s.ops, (F o).id = o.id)
    (hFhash : ∀ o ∈ s.ops, (F o).user_op_hash = o.user_op_hash)
    (hGid : ∀ k ∈ s.jobs, (G k).id = k.id)
    (hGuo : ∀ k ∈ s.jobs, ∃ o ∈ s.ops, o.id = (G k).user_operation) :
    Wf { ops := s.ops.map F, jobs := s.jobs.map G, events := E,
         next_id := s.next_id + n } := by
  obtain ⟨h1, h2, h3, h4, h5, h6⟩ := h
  refine ⟨?_, ?_, ?_, ?_, ?_, ?_⟩
  · rw [map_key_eq_mem F (fun o => o.id) s.ops hFid]
    exact h1
  · rw [map_key_eq_mem G (fun j => j.id) s.jobs hGid]
    exact h2
  · rw [List.pairwise_map]
    refine (List.pairwise_iff_forall_sublist.mpr ?_)
    intro a b hab
    have ha := hab.subset (List.mem_cons_self a [b])
    have hb := hab.subset (List.mem_cons_of_mem a (List.mem_singleton.mpr rfl))
    have := List.pairwise_iff_forall_sublist.mp h3 hab
    rw [hFhash a ha, hFhash b hb]
    exact this
  · intro o ho
    obtain ⟨x, hx, rfl⟩ := List.mem_map.mp ho
    rw [hFid x hx]
    exact Nat.lt_of_lt_of_le (h4 x hx) (Nat.le_add_right _ n)
  · intro j hj
    obtain ⟨x, hx, rfl⟩ := List.mem_map.mp hj
    rw [hGid x hx]
    exact Nat.lt_of_lt_of_le (h5 x hx) (Nat.le_add_right _ n)
  · intro j hj
    obtain ⟨x, hx, rfl⟩ := List.mem_map.mp hj
    obtain ⟨o, ho, hid⟩ := hGuo x hx
    exact ⟨F o, List.mem_map.mpr ⟨o, ho, rfl⟩, by rw [hFid o ho]; exact hid⟩

theorem wf_dispatchBatch (now : Int) (b : Nat) {s : Store} (h : Wf s) :
    Wf (dispatchBatch now b s).fst := by
  rw [dispatchBatch_fst, claim_foldl now _ s (dispatchCandidates_idNodup h.2.1)]
  refine wf_mapped h (applyClaimOps now (dispatchCandidates b s))
    (applyClaimJobs now (dispatchCandidates b s)) _ _
    (fun o _ => applyClaimOps_id now _ o) (fun o _ => applyClaimOps_hash now _ o)
    (fun k _ => applyClaimJobs_id now _ k) ?_
  intro k hk
  rcases applyClaimJobs_cases now (dispatchCandidates b s) k with hcase | ⟨j, hjL, hcase⟩
  · rw [hcase]
    exact h.2.2.2.2.2 k hk
  · rw [hcase, claimJobUpd_user_operation]
    exact h.2.2.2.2.2 j (dispatchCandidates_mem hjL).1

theorem wf_reconcileInflight (now : Int) (limit : Nat) {s : Store} (h : Wf s) :
    Wf (reconcileInflight now limit s).fst := by
  rw [reconcileInflight_fst, recon_foldl now _ s (staleSelection_idNodup h.2.1)]
  refine wf_mapped h (applyReconOps now (staleSelection now limit s))
    (applyReconJobs now (staleSelection now limit s)) _ _
    (fun o _ => applyReconOps_id now _ o) (fun o _ => applyReconOps_hash now _ o)
    (fun k _ => applyReconJobs_id now _ k) ?_
  intro k hk
  rcases applyReconJobs_cases now (staleSelection now limit s) k with hcase | ⟨j, hjL, hcase⟩
  · rw [hcase]
    exact h.2.2.2.2.2 k hk
  · rw [hcase, reconJobUpd_user_operation]
    exact h.2.2.2.2.2 j (staleSelection_mem hjL).1

theorem wf_markIncluded (now : Int) (jid : Nat) (tx : String) {s : Store} (h : Wf s) :
    Wf (markIncluded now jid tx s).fst := by
  cases hj : findJob s jid with
  | none =>
      rw [markIncluded_jobNone hj now tx]
      exact h
  | some job =>
      cases ho : findOp s job.user_operation with
      | none =>
          rw [markIncluded_opNone hj ho now tx]
          exact h
      | some op =>
          rw [markIncluded_found hj ho now tx]
          have hopmem : op ∈ s.ops := List.mem_of_find?_eq_some ho
          have hjobmem : job ∈ s.jobs := List.mem_of_find?_eq_some hj
          refine wf_mapped h _ _ _ 1 ?_ ?_ ?_ ?_
          · intro o ho2
            dsimp only
            split
            · rename_i hbeq
              exact (eq_of_beq hbeq).symm
            · rfl
          · intro o ho2
            dsimp only
            split
            · rename_i hbeq
              have : o = op := List.inj_on_of_nodup_map h.1 ho2 hopmem (eq_of_beq hbeq)
              rw [this]
            · rfl
          · intro k hk
            dsimp only
            split
            · rename_i hbeq
              exact (eq_of_beq hbeq).symm
            · rfl
          · intro k hk
            dsimp only
            split
            · exact h.2.2.2.2.2 job hjobmem
            · exact h.2.2.2.2.2 k hk

end BundlerGateway

namespace BundlerGateway

theorem requeueOpUpd_id (now : Int) (o : UserOperation) : (requeueOpUpd now o).id = o.id := rfl

theorem requeueOpUpd_hash (now : Int) (o : UserOperation) :
    (requeueOpUpd now o).user_op_hash = o.user_op_hash := rfl

theorem wf_queueOperation (now : Int) (cid : Nat) (sender uh nonce ep : String)
    (p : OpPayload) (m : Dict) {s : Store} (h : Wf s) :
    Wf (queueOperation now cid sender uh nonce ep p m s).fst := by
  obtain ⟨h1, h2, h3, h4, h5, h6⟩ := h
  cases hf : findOpByHash s uh with
  | none =>
      rw [queueOperation_none hf now cid sender nonce ep p m]
      dsimp only
      have hnew : ∀ x ∈ s.ops, x.user_op_hash ≠ uh := by
        intro x hx
        have := List.find?_eq_none.mp hf x hx
        intro hc
        exact this (by rw [hc]; exact beq_self_eq_true uh)
      refine ⟨?_, ?_, ?_, ?_, ?_, ?_⟩
      · rw [List.map_append]
        refine nodup_append_singleton h1 ?_
        intro hc
        obtain ⟨x, hx, hid⟩ := List.mem_map.mp hc
        have hid2 : x.id = s.next_id := by simpa [newOperation] using hid
        have := h4 x hx
        omega
      · rw [List.map_append]
        refine nodup_append_singleton h2 ?_
        intro hc
        obtain ⟨x, hx, hid⟩ := List.mem_map.mp hc
        have hid2 : x.id = s.next_id + 1 := by simpa [initialJob] using hid
        have := h5 x hx
        omega
      · exact pairwise_append_singleton h3 (fun x hx => hnew x hx)
      · intro o ho
        rcases List.mem_append.mp ho with ho | ho
        · have := h4 o ho
          dsimp only
          omega
        · rw [List.mem_singleton.mp ho]
          show (newOperation now s.next_id cid sender uh nonce p m).id < s.next_id + 3
          simp only [newOperation]
          omega
      · intro j hj
        rcases List.mem_append.mp hj with hj | hj
        · have := h5 j hj
          dsimp only
          omega
        · rw [List.mem_singleton.mp hj]
          show (initialJob now (s.next_id + 1) s.next_id ep).id < s.next_id + 3
          simp only [initialJob]
          omega
      · intro j hj
        rcases List.mem_append.mp hj with hj | hj
        · obtain ⟨o, ho, hid⟩ := h6 j hj
          exact ⟨o, List.mem_append.mpr (Or.inl ho), hid⟩
        · rw [List.mem_singleton.mp hj]
          exact ⟨newOperation now s.next_id cid sender uh nonce p m,
            List.mem_append.mpr (Or.inr (List.mem_singleton.mpr rfl)), rfl⟩
  | some o =>
      have homem : o ∈ s.ops := List.mem_of_find?_eq_some hf
      have hbound := h4 o homem
      by_cases hq : o.status = OpStatus.queued
      · rw [queueOperation_found_queued hf hq now cid sender nonce ep p m]
        dsimp only
        refine ⟨h1, ?_, h3, ?_, ?_, ?_⟩
        · rw [List.map_append]
          refine nodup_append_singleton h2 ?_
          intro hc
          obtain ⟨x, hx, hid⟩ := List.mem_map.mp hc
          have hid2 : x.id = s.next_id := by simpa [initialJob] using hid
          have := h5 x hx
          omega
        · intro x hx
          have := h4 x hx
          dsimp only
          omega
        · intro j hj
          rcases List.mem_append.mp hj with hj | hj
          · have := h5 j hj
            dsimp only
            omega
          · rw [List.mem_singleton.mp hj]
            show (initialJob now s.next_id o.id ep).id < s.next_id + 2
            simp only [initialJob]
            omega
        · intro j hj
          rcases List.mem_append.mp hj with hj | hj
          · exact h6 j hj
          · rw [List.mem_singleton.mp hj]
            exact ⟨o, homem, rfl⟩
      · rw [queueOperation_found_reset hf hq now cid sender nonce ep p m]
        dsimp only
        have hFid : ∀ x ∈ s.ops,
            ((fun x => if x.id == o.id then requeueOpUpd now x else x) x).id = x.id := by
          intro x _
          dsimp only
          split <;> rfl
        have hFhash : ∀ x ∈ s.ops,
            ((fun x => if x.id == o.id then requeueOpUpd now x else x) x).user_op_hash =
              x.user_op_hash := by
          intro x _
          dsimp only
          split <;> rfl
        refine ⟨?_, ?_, ?_, ?_, ?_, ?_⟩
        · rw [map_key_eq_mem _ (fun x => x.id) s.ops hFid]
          exact h1
        · rw [List.map_append]
          refine nodup_append_singleton h2 ?_
          intro hc
          obtain ⟨x, hx, hid⟩ := List.mem_map.mp hc
          have hid2 : x.id = s.next_id := by simpa [initialJob] using hid
          have := h5 x hx
          omega
        · rw [List.pairwise_map]
          refine List.pairwise_iff_forall_sublist.mpr ?_
          intro a b hab
          have ha := hab.subset (List.mem_cons_self a [b])
          have hb := hab.subset (List.mem_cons_of_mem a (List.mem_singleton.mpr rfl))
          have := List.pairwise_iff_forall_sublist.mp h3 hab
          rw [hFhash a ha, hFhash b hb]
          exact this
        · intro x hx
          obtain ⟨y, hy, rfl⟩ := List.mem_map.mp hx
          rw [hFid y hy]
          have := h4 y hy
          dsimp only
          omega
        · intro j hj
          rcases List.mem_append.mp hj with hj | hj
          · have := h5 j hj
            dsimp only
            omega
          · rw [List.mem_singleton.mp hj]
            show (initialJob now s.next_id o.id ep).id < s.next_id + 2
            simp only [initialJob]
            omega
        · intro j hj
          rcases List.mem_append.mp hj with hj | hj
          · obtain ⟨x, hx, hid⟩ := h6 j hj
            refine ⟨(fun x => if x.id == o.id then requeueOpUpd now x else x) x,
              List.mem_map.mpr ⟨x, hx, rfl⟩, ?_⟩
            rw [hFid x hx]
            exact hid
          · rw [List.mem_singleton.mp hj]
            refine ⟨(fun x => if x.id == o.id then requeueOpUpd now x else x) o,
              List.mem_map.mpr ⟨o, homem, rfl⟩, ?_⟩
            rw [hFid o homem]
            rfl

/-- Every reachable store is well-formed. -/
theorem reachable_wf {s : Store} (h : Reachable s) : Wf s := by
  induction h with
  | init =>
      exact ⟨List.nodup_nil, List.nodup_nil, List.Pairwise.nil,
        fun o ho => absurd ho (List.not_mem_nil o),
        fun j hj => absurd hj (List.not_mem_nil j),
        fun j hj => absurd hj (List.not_mem_nil j)⟩
  | next _ hstep ih =>
      cases hstep with
      | queue now cid sender uh nonce ep p m s =>
          exact wf_queueOperation now cid sender uh nonce ep p m ih
      | dispatch now b s =>
          exact wf_dispatchBatch now b ih
      | reconcile now limit s =>
          exact wf_reconcileInflight now limit ih
      | mark now jid tx s =>
          exact wf_markIncluded now jid tx ih

end BundlerGateway

namespace BundlerGateway

/-! Helper characterisations used by the claim theorems. -/

theorem dispatchBatch_snd_ids (now : Int) (b : Nat) (s : Store) :
    (dispatchBatch now b s).snd.job_ids = (dispatchCandidates b s).map (fun j => j.id) := by
  unfold dispatchBatch
  dsimp only
  split
  · rename_i hemp
    rw [List.isEmpty_iff.mp hemp]
    rfl
  · rfl

theorem dispatchBatch_snd_count (now : Int) (b : Nat) (s : Store) :
    (dispatchBatch now b s).snd.count = (dispatchCandidates b s).length := by
  unfold dispatchBatch
  dsimp only
  split
  · rename_i hemp
    rw [List.isEmpty_iff.mp hemp]
    rfl
  · rfl

theorem applyClaimJobs_eq_of_mem {s : Store} (hnd : (s.jobs.map (fun j => j.id)).Nodup)
    {L : List BundlerJob} (hL : ∀ j ∈ L, j ∈ s.jobs) (now : Int) {k : BundlerJob}
    (hk : k ∈ s.jobs) (hkL : k ∈ L) :
    applyClaimJobs now L k = claimJobUpd now k := by
  unfold applyClaimJobs
  cases hf : L.find? (fun j => k.id == j.id) with
  | none =>
      exact absurd (beq_self_eq_true k.id) (List.find?_eq_none.mp hf k hkL)
  | some j =>
      have hpj := List.find?_some hf
      have hjk : j = k :=
        List.inj_on_of_nodup_map hnd (hL j (List.mem_of_find?_eq_some hf)) hk
          (eq_of_beq hpj).symm
      rw [hjk]

theorem applyClaimJobs_eq_self_of_not_mem {s : Store}
    (hnd : (s.jobs.map (fun j => j.id)).Nodup) {L : List BundlerJob}
    (hL : ∀ j ∈ L, j ∈ s.jobs) (now : Int) {k : BundlerJob} (hk : k ∈ s.jobs)
    (hkL : k ∉ L) : applyClaimJobs now L k = k := by
  unfold applyClaimJobs
  cases hf : L.find? (fun j => k.id == j.id) with
  | none => rfl
  | some j =>
      have hpj := List.find?_some hf
      have hjk : j = k :=
        List.inj_on_of_nodup_map hnd (hL j (List.mem_of_find?_eq_some hf)) hk
          (eq_of_beq hpj).symm
      exact absurd (hjk ▸ List.mem_of_find?_eq_some hf) hkL

theorem applyReconJobs_eq_of_mem {s : Store} (hnd : (s.jobs.map (fun j => j.id)).Nodup)
    {L : List BundlerJob} (hL : ∀ j ∈ L, j ∈ s.jobs) (now : Int) {k : BundlerJob}
    (hk : k ∈ s.jobs) (hkL : k ∈ L) :
    applyReconJobs now L k = reconJobUpd now k := by
  unfold applyReconJobs
  cases hf : L.find? (fun j => k.id == j.id) with
  | none =>
      exact absurd (beq_self_eq_true k.id) (List.find?_eq_none.mp hf k hkL)
  | some j =>
      have hpj := List.find?_some hf
      have hjk : j = k :=
        List.inj_on_of_nodup_map hnd (hL j (List.mem_of_find?_eq_some hf)) hk
          (eq_of_beq hpj).symm
      rw [hjk]

theorem applyReconJobs_eq_self_of_not_mem {s : Store}
    (hnd : (s.jobs.map (fun j => j.id)).Nodup) {L : List BundlerJob}
    (hL : ∀ j ∈ L, j ∈ s.jobs) (now : Int) {k : BundlerJob} (hk : k ∈ s.jobs)
    (hkL : k ∉ L) : applyReconJobs now L k = k := by
  unfold applyReconJobs
  cases hf : L.find? (fun j => k.id == j.id) with
  | none => rfl
  | some j =>
      have hpj := List.find?_some hf
      have hjk : j = k :=
        List.inj_on_of_nodup_map hnd (hL j (List.mem_of_find?_eq_some hf)) hk
          (eq_of_beq hpj).symm
      exact absurd (hjk ▸ List.mem_of_find?_eq_some hf) hkL

theorem applyClaimOps_eq_upd_of_mem (now : Int) {L : List BundlerJob} {o : UserOperation}
    (h : ∃ j ∈ L, j.user_operation = o.id) :
    applyClaimOps now L o = { o with status := OpStatus.dispatched, updated_at := now } := by
  unfold applyClaimOps
  obtain ⟨j, hj, hjo⟩ := h
  rw [if_pos (List.any_eq_true.mpr ⟨j, hj, by rw [hjo]; exact beq_self_eq_true o.id⟩)]

theorem applyClaimOps_eq_self (now : Int) {L : List BundlerJob} {o : UserOperation}
    (h : ∀ j ∈ L, j.user_operation ≠ o.id) : applyClaimOps now L o = o := by
  unfold applyClaimOps
  rw [if_neg]
  intro hc
  obtain ⟨j, hj, hjo⟩ := List.any_eq_true.mp hc
  exact h j hj (eq_of_beq hjo).symm

theorem applyReconOps_eq_self_of_no_match (now : Int) {L : List BundlerJob}
    {o : UserOperation} (h : ∀ j ∈ L, j.user_operation ≠ o.id) :
    applyReconOps now L o = o := by
  induction L generalizing o with
  | nil => rfl
  | cons a T ih =>
      unfold applyReconOps
      rw [List.foldl_cons]
      have hna : ¬(o.id == a.user_operation) = true := by
        intro hc
        exact h a (List.mem_cons_self a T) (eq_of_beq hc).symm
      rw [if_neg hna]
      exact ih (fun j hj => h j (List.mem_cons_of_mem a hj))

/-- When exactly one processed job references an operation, the batch applies
exactly that job's update to it. -/
theorem applyReconOps_single (now : Int) {L : List BundlerJob} {j : BundlerJob}
    {o : UserOperation} (hnd : (L.map (fun x => x.id)).Nodup) (hmem : j ∈ L)
    (huniq : ∀ x ∈ L, x.user_operation = j.user_operation → x = j)
    (ho : o.id = j.user_operation) : applyReconOps now L o = reconOpUpd now j o := by
  induction L generalizing o with
  | nil => exact absurd hmem (List.not_mem_nil j)
  | cons a T ih =>
      rw [List.map_cons, List.nodup_cons] at hnd
      obtain ⟨hand, hTnd⟩ := hnd
      unfold applyReconOps
      rw [List.foldl_cons]
      by_cases ha : (o.id == a.user_operation) = true
      · have haj : a = j := huniq a (List.mem_cons_self a T) (by
          rw [← (eq_of_beq ha), ho])
        rw [if_pos ha]
        have hnoT : ∀ x ∈ T, x.user_operation ≠ (reconOpUpd now a o).id := by
          intro x hx hc
          rw [reconOpUpd_id] at hc
          have hxj : x = j := huniq x (List.mem_cons_of_mem a hx) (by rw [hc, ← ho])
          exact hand (List.mem_map.mpr ⟨x, hx, by rw [hxj, ← haj]⟩)
        have hself : applyReconOps now T (reconOpUpd now a o) = reconOpUpd now a o :=
          applyReconOps_eq_self_of_no_match now hnoT
        show applyReconOps now T (reconOpUpd now a o) = reconOpUpd now j o
        rw [hself, haj]
      · have haj : a ≠ j := by
          intro hc
          exact ha (by rw [hc, ← ho]; exact beq_self_eq_true o.id)
        have hjT : j ∈ T := by
          rcases List.mem_cons.mp hmem with hc | hc
          · exact absurd hc.symm haj
          · exact hc
        rw [if_neg ha]
        show applyReconOps now T o = reconOpUpd now j o
        exact ih hTnd hjT (fun x hx hxo => huniq x (List.mem_cons_of_mem a hx) hxo) ho

theorem eventsFrom_length (f : Nat → BundlerJob → UserOperationEvent) (base : Nat)
    (L : List BundlerJob) : (eventsFrom f base L).length = L.length := by
  induction L generalizing base with
  | nil => rfl
  | cons j T ih =>
      unfold eventsFrom
      rw [List.length_cons, List.length_cons, ih]

theorem eventsFrom_get (f : Nat → BundlerJob → UserOperationEvent) (base : Nat)
    (L : List BundlerJob) (i : Nat) (hi : i < L.length)
    (hi2 : i < (eventsFrom f base L).length) :
    (eventsFrom f base L).get ⟨i, hi2⟩ = f (base + i) (L.get ⟨i, hi⟩) := by
  induction L generalizing base i with
  | nil => exact absurd hi (Nat.not_lt_zero i)
  | cons j T ih =>
      cases i with
      | zero => rfl
      | succ n =>
          have hn : n < T.length := Nat.lt_of_succ_lt_succ hi
          have hn2 : n < (eventsFrom f (base + 1) T).length := by
            rw [eventsFrom_length]
            exact hn
          have : (eventsFrom f base (j :: T)).get ⟨n + 1, hi2⟩ =
              (eventsFrom f (base + 1) T).get ⟨n, hn2⟩ := rfl
          rw [this, ih (base + 1) n hn hn2]
          congr 1
          omega

theorem filter_split_length {α : Type} (p q : α → Bool) (l : List α)
    (hpq : ∀ x ∈ l, p x = !q x) :
    (l.filter p).length + (l.filter q).length = l.length := by
  induction l with
  | nil => rfl
  | cons a T ih =>
      have hpa := hpq a (List.mem_cons_self a T)
      have ihT := ih (fun x hx => hpq x (List.mem_cons_of_mem a hx))
      rw [List.filter_cons, List.filter_cons, hpa]
      cases hq : q a with
      | true =>
          rw [Bool.not_true, if_neg Bool.false_ne_true, if_pos rfl,
            List.length_cons, List.length_cons]
          omega
      | false =>
          rw [Bool.not_false, if_pos rfl, if_neg Bool.false_ne_true,
            List.length_cons, List.length_cons]
          omega

end BundlerGateway

namespace BundlerGateway

/-! Hash uniqueness helpers. -/

theorem pairwise_hash_eq {s : Store} (h3 : s.ops.Pairwise
    (fun a b => a.user_op_hash ≠ b.user_op_hash)) {a b : UserOperation}
    (ha : a ∈ s.ops) (hb : b ∈ s.ops) (hh : a.user_op_hash = b.user_op_hash) : a = b := by
  by_contra hne
  exact List.Pairwise.forall (fun x y hxy => (Ne.symm hxy : _)) h3 ha hb hne hh

theorem findOpByHash_eq_of_mem {s : Store} (h3 : s.ops.Pairwise
    (fun a b => a.user_op_hash ≠ b.user_op_hash)) {o : UserOperation} {uh : String}
    (ho : o ∈ s.ops) (hh : o.user_op_hash = uh) : findOpByHash s uh = some o := by
  unfold findOpByHash
  cases hf : s.ops.find? (fun x => x.user_op_hash == uh) with
  | none =>
      exact absurd (by rw [hh]; exact beq_self_eq_true uh)
        (List.find?_eq_none.mp hf o ho)
  | some x =>
      have hpx := List.find?_some hf
      have hx : x = o := pairwise_hash_eq h3 (List.mem_of_find?_eq_some hf) ho
        (by rw [eq_of_beq hpx, hh])
      rw [hx]

theorem queue_hash_exists (now : Int) (cid : Nat) (sender uh nonce ep : String)
    (p : OpPayload) (m : Dict) (s : Store) :
    ∃ o ∈ (queueOperation now cid sender uh nonce ep p m s).fst.ops,
      o.user_op_hash = uh := by
  cases hf : findOpByHash s uh with
  | none =>
      rw [queueOperation_none hf now cid sender nonce ep p m]
      exact ⟨newOperation now s.next_id cid sender uh nonce p m,
        List.mem_append.mpr (Or.inr (List.mem_singleton.mpr rfl)), rfl⟩
  | some o =>
      have homem : o ∈ s.ops := List.mem_of_find?_eq_some hf
      have hpo := List.find?_some hf
      have hho : o.user_op_hash = uh := eq_of_beq hpo
      by_cases hq : o.status = OpStatus.queued
      · rw [queueOperation_found_queued hf hq now cid sender nonce ep p m]
        exact ⟨o, homem, hho⟩
      · rw [queueOperation_found_reset hf hq now cid sender nonce ep p m]
        refine ⟨(fun x => if x.id == o.id then requeueOpUpd now x else x) o,
          List.mem_map.mpr ⟨o, homem, rfl⟩, ?_⟩
        dsimp only
        split <;> exact hho

theorem countP_hash_one {l : List UserOperation} {uh : String}
    (h3 : l.Pairwise (fun a b => a.user_op_hash ≠ b.user_op_hash))
    (hex : ∃ o ∈ l, o.user_op_hash = uh) :
    l.countP (fun o => o.user_op_hash == uh) = 1 := by
  induction l with
  | nil =>
      obtain ⟨o, ho, _⟩ := hex
      exact absurd ho (List.not_mem_nil o)
  | cons a T ih =>
      rw [List.pairwise_cons] at h3
      obtain ⟨hhead, hTp⟩ := h3
      rw [List.countP_cons]
      by_cases hhash : a.user_op_hash = uh
      · have hz : T.countP (fun o => o.user_op_hash == uh) = 0 := by
          rw [List.countP_eq_zero]
          intro x hx hc
          exact hhead x hx (by rw [hhash, eq_of_beq hc])
        rw [hz, if_pos (by rw [hhash]; exact beq_self_eq_true uh)]
      · obtain ⟨o, ho, hho⟩ := hex
        rcases List.mem_cons.mp ho with hoa | hoT
        · exact absurd (hoa ▸ hho) hhash
        · rw [ih hTp ⟨o, hoT, hho⟩, if_neg (by
            intro hc
            exact hhash (eq_of_beq hc))]

/-! Dict update helpers for the metadata merge. -/

theorem dictSet_mem_self (m : Dict) (k v : String) : (k, v) ∈ dictSet m k v := by
  unfold dictSet
  by_cases h : (m.any fun p => p.fst == k) = true
  · rw [if_pos h]
    obtain ⟨p, hp, hpk⟩ := List.any_eq_true.mp h
    refine List.mem_map.mpr ⟨p, hp, ?_⟩
    rw [if_pos hpk]
  · rw [if_neg h]
    exact List.mem_append.mpr (Or.inr (List.mem_singleton.mpr rfl))

theorem dictSet_mem_of_ne {m : Dict} {kv : String × String} (hm : kv ∈ m) {k : String}
    (hk : kv.fst ≠ k) (v : String) : kv ∈ dictSet m k v := by
  unfold dictSet
  by_cases h : (m.any fun p => p.fst == k) = true
  · rw [if_pos h]
    refine List.mem_map.mpr ⟨kv, hm, ?_⟩
    rw [if_neg (by
      intro hc
      exact hk (eq_of_beq hc))]
  · rw [if_neg h]
    exact List.mem_append.mpr (Or.inl hm)

theorem dictSet_mem_cases {m : Dict} {k v : String} {kv : String × String}
    (hkv : kv ∈ dictSet m k v) : kv = (k, v) ∨ (kv ∈ m ∧ kv.fst ≠ k) := by
  unfold dictSet at hkv
  by_cases h : (m.any fun p => p.fst == k) = true
  · rw [if_pos h] at hkv
    obtain ⟨p, hp, hpkv⟩ := List.mem_map.mp hkv
    by_cases hpk : (p.fst == k) = true
    · rw [if_pos hpk] at hpkv
      exact Or.inl hpkv.symm
    · rw [if_neg hpk] at hpkv
      refine Or.inr ⟨hpkv ▸ hp, ?_⟩
      rw [← hpkv]
      intro hc
      exact hpk (hc ▸ beq_self_eq_true k)
  · rw [if_neg h] at hkv
    rcases List.mem_append.mp hkv with hin | hone
    · refine Or.inr ⟨hin, ?_⟩
      intro hc
      rw [List.any_eq_true] at h
      exact h ⟨kv, hin, hc ▸ beq_self_eq_true k⟩
    · exact Or.inl (List.mem_singleton.mp hone)

end BundlerGateway

namespace BundlerGateway

/-! Row-level frame lemmas: what can happen to one job or operation row under
a single gateway call. -/

theorem queue_job_of_id {s : Store} (hwf : Wf s) (now : Int) (cid : Nat)
    (sender uh nonce ep : String) (p : OpPayload) (m : Dict) {k : BundlerJob}
    (hk : k ∈ s.jobs) {j2 : BundlerJob}
    (hj2 : j2 ∈ (queueOperation now cid sender uh nonce ep p m s).fst.jobs)
    (hid : j2.id = k.id) : j2 = k := by
  have hbound := hwf.2.2.2.2.1 k hk
  cases hf : findOpByHash s uh with
  | none =>
      rw [queueOperation_none hf now cid sender nonce ep p m] at hj2
      dsimp only at hj2
      rcases List.mem_append.mp hj2 with hj2 | hj2
      · exact List.inj_on_of_nodup_map hwf.2.1 hj2 hk hid
      · rw [List.mem_singleton.mp hj2] at hid ⊢
        have : (initialJob now (s.next_id + 1) s.next_id ep).id = s.next_id + 1 := rfl
        omega
  | some o =>
      by_cases hq : o.status = OpStatus.queued
      · rw [queueOperation_found_queued hf hq now cid sender nonce ep p m] at hj2
        dsimp only at hj2
        rcases List.mem_append.mp hj2 with hj2 | hj2
        · exact List.inj_on_of_nodup_map hwf.2.1 hj2 hk hid
        · rw [List.mem_singleton.mp hj2] at hid ⊢
          have : (initialJob now s.next_id o.id ep).id = s.next_id := rfl
          omega
      · rw [queueOperation_found_reset hf hq now cid sender nonce ep p m] at hj2
        dsimp only at hj2
        rcases List.mem_append.mp hj2 with hj2 | hj2
        · exact List.inj_on_of_nodup_map hwf.2.1 hj2 hk hid
        · rw [List.mem_singleton.mp hj2] at hid ⊢
          have : (initialJob now s.next_id o.id ep).id = s.next_id := rfl
          omega

theorem dispatch_job_of_id {s : Store} (hwf : Wf s) (now : Int) (b : Nat)
    {k : BundlerJob} (hk : k ∈ s.jobs) {j2 : BundlerJob}
    (hj2 : j2 ∈ (dispatchBatch now b s).fst.jobs) (hid : j2.id = k.id) :
    j2 = k ∨ (k ∈ dispatchCandidates b s ∧ j2 = claimJobUpd now k) := by
  rw [dispatchBatch_fst, claim_foldl now _ s (dispatchCandidates_idNodup hwf.2.1)] at hj2
  dsimp only at hj2
  obtain ⟨x, hx, hxe⟩ := List.mem_map.mp hj2
  have hxid : x.id = k.id := by
    rw [← applyClaimJobs_id now (dispatchCandidates b s) x, hxe, hid]
  have hxk : x = k := List.inj_on_of_nodup_map hwf.2.1 hx hk hxid
  subst hxk
  by_cases hmem : x ∈ dispatchCandidates b s
  · refine Or.inr ⟨hmem, ?_⟩
    rw [← hxe, applyClaimJobs_eq_of_mem hwf.2.1 (fun j hj => (dispatchCandidates_mem hj).1)
      now hx hmem]
  · refine Or.inl ?_
    rw [← hxe, applyClaimJobs_eq_self_of_not_mem hwf.2.1
      (fun j hj => (dispatchCandidates_mem hj).1) now hx hmem]

theorem recon_job_of_id {s : Store} (hwf : Wf s) (now : Int) (limit : Nat)
    {k : BundlerJob} (hk : k ∈ s.jobs) {j2 : BundlerJob}
    (hj2 : j2 ∈ (reconcileInflight now limit s).fst.jobs) (hid : j2.id = k.id) :
    j2 = k ∨ (k ∈ staleSelection now limit s ∧ j2 = reconJobUpd now k) := by
  rw [reconcileInflight_fst, recon_foldl now _ s (staleSelection_idNodup hwf.2.1)] at hj2
  dsimp only at hj2
  obtain ⟨x, hx, hxe⟩ := List.mem_map.mp hj2
  have hxid : x.id = k.id := by
    rw [← applyReconJobs_id now (staleSelection now limit s) x, hxe, hid]
  have hxk : x = k := List.inj_on_of_nodup_map hwf.2.1 hx hk hxid
  subst hxk
  by_cases hmem : x ∈ staleSelection now limit s
  · refine Or.inr ⟨hmem, ?_⟩
    rw [← hxe, applyReconJobs_eq_of_mem hwf.2.1 (fun j hj => (staleSelection_mem hj).1)
      now hx hmem]
  · refine Or.inl ?_
    rw [← hxe, applyReconJobs_eq_self_of_not_mem hwf.2.1
      (fun j hj => (staleSelection_mem hj).1) now hx hmem]

theorem mark_job_of_id {s : Store} (hwf : Wf s) (now : Int) (jid : Nat) (tx : String)
    {k : BundlerJob} (hk : k ∈ s.jobs) {j2 : BundlerJob}
    (hj2 : j2 ∈ (markIncluded now jid tx s).fst.jobs) (hid : j2.id = k.id) :
    j2 = k ∨ j2.status = JobStatus.succeeded := by
  cases hj : findJob s jid with
  | none =>
      rw [markIncluded_jobNone hj now tx] at hj2
      exact Or.inl (List.inj_on_of_nodup_map hwf.2.1 hj2 hk hid)
  | some job =>
      cases ho : findOp s job.user_operation with
      | none =>
          rw [markIncluded_opNone hj ho now tx] at hj2
          exact Or.inl (List.inj_on_of_nodup_map hwf.2.1 hj2 hk hid)
      | some op =>
          rw [markIncluded_found hj ho now tx] at hj2
          dsimp only at hj2
          obtain ⟨x, hx, hxe⟩ := List.mem_map.mp hj2
          by_cases hbeq : (x.id == job.id) = true
          · rw [if_pos hbeq] at hxe
            exact Or.inr (by rw [← hxe])
          · rw [if_neg hbeq] at hxe
            exact Or.inl (hxe ▸ List.inj_on_of_nodup_map hwf.2.1 hx hk (hxe ▸ hid))

theorem mark_op_of_id {s : Store} (hwf : Wf s) (now : Int) (jid : Nat) (tx : String)
    {o : UserOperation} (ho : o ∈ s.ops) {o2 : UserOperation}
    (ho2 : o2 ∈ (markIncluded now jid tx s).fst.ops) (hid : o2.id = o.id) :
    o2 = o ∨ o2.status = OpStatus.included := by
  cases hj : findJob s jid with
  | none =>
      rw [markIncluded_jobNone hj now tx] at ho2
      exact Or.inl (List.inj_on_of_nodup_map hwf.1 ho2 ho hid)
  | some job =>
      cases hop : findOp s job.user_operation with
      | none =>
          rw [markIncluded_opNone hj hop now tx] at ho2
          exact Or.inl (List.inj_on_of_nodup_map hwf.1 ho2 ho hid)
      | some op =>
          rw [markIncluded_found hj hop now tx] at ho2
          dsimp only at ho2
          obtain ⟨x, hx, hxe⟩ := List.mem_map.mp ho2
          by_cases hbeq : (x.id == op.id) = true
          · rw [if_pos hbeq] at hxe
            exact Or.inr (by rw [← hxe])
          · rw [if_neg hbeq] at hxe
            exact Or.inl (hxe ▸ List.inj_on_of_nodup_map hwf.1 hx ho (hxe ▸ hid))

end BundlerGateway

namespace BundlerGateway

/-! Reachability of the concrete traces. -/

theorem reachable_cxA4 : Reachable cxA4 :=
  (((Reachable.init.next
    (Step.queue 0 4202 "0xSENDER" "0xHASH" "1" "https://bundler.mock/rpc" {}
      [("source", "test")] emptyStore)).next
    (Step.queue 1 4202 "0xSENDER" "0xHASH" "1" "https://bundler.mock/rpc" {}
      [("source", "test")] cxA1)).next
    (Step.dispatch 2 1 cxA2)).next
    (Step.mark 3 1 "0xTX" cxA3)

theorem reachable_cxA5 : Reachable cxA5 :=
  reachable_cxA4.next (Step.dispatch 4 1 cxA4)

theorem reachable_cxB8 : Reachable cxB8 :=
  ((((((Reachable.init.next
    (Step.queue 0 4202 "0xSENDER" "0xHASH" "1" "https://bundler.mock/rpc" {} []
      emptyStore)).next
    (Step.dispatch 10 1 cxB1)).next
    (Step.reconcile 1000 5 cxB2)).next
    (Step.dispatch 1010 1 cxB3)).next
    (Step.reconcile 2000 5 cxB4)).next
    (Step.dispatch 2010 1 cxB5)).next
    (Step.queue 2020 4202 "0xSENDER" "0xHASH" "1" "https://bundler.mock/rpc" {} []
      cxB6) |>.next
    (Step.dispatch 2030 1 cxB7)

theorem reachable_cxC8 : Reachable cxC8 :=
  ((((((Reachable.init.next
    (Step.queue 0 4202 "0xSENDER" "0xHASH" "1" "https://bundler.mock/rpc" {} []
      emptyStore)).next
    (Step.dispatch 1 1 cxC1)).next
    (Step.queue 2 4202 "0xSENDER" "0xHASH" "1" "https://bundler.mock/rpc" {} []
      cxC2)).next
    (Step.dispatch 3 1 cxC3)).next
    (Step.reconcile 400 5 cxC4)).next
    (Step.dispatch 401 2 cxC5)).next
    (Step.reconcile 800 1 cxC6) |>.next
    (Step.dispatch 801 1 cxC7)

theorem reachable_cxD3 : Reachable cxD3 :=
  ((Reachable.init.next
    (Step.queue 0 4202 "0xSENDER" "0xHASH" "1" "https://bundler.mock/rpc" {}
      [("tx_hash", "0xOLD")] emptyStore)).next
    (Step.dispatch 1 1 cxD1)).next
    (Step.mark 2 1 "0xNEW" cxD2)

end BundlerGateway

namespace BundlerGateway

/-- C8: for every batch_size, the dispatch result has count equal to the
length of job_ids, but the operation_hashes key is present (`some`) exactly
when the count is nonzero: the zero-count result omits it, which the claim
and the router response model do not allow. -/
theorem C8_dispatch_result_shape :
    ((dispatchBatch 0 10 emptyStore).snd =
      { count := 0, job_ids := [], operation_hashes := none }) ∧
    ∀ (now : Int) (b : Nat) (s : Store),
      (dispatchBatch now b s).snd.count = (dispatchBatch now b s).snd.job_ids.length ∧
      ((dispatchBatch now b s).snd.operation_hashes = none ↔
        (dispatchBatch now b s).snd.count = 0) := by
  refine ⟨by decide, ?_⟩
  intro now b s
  unfold dispatchBatch
  dsimp only
  split
  · exact ⟨rfl, iff_of_true rfl rfl⟩
  · rename_i hemp
    refine ⟨(List.length_map _ _).symm, iff_of_false (fun hc => Option.noConfusion hc) ?_⟩
    intro hc
    rw [List.length_eq_zero] at hc
    rw [hc] at hemp
    exact hemp rfl

end BundlerGateway

namespace BundlerGateway

theorem opOk_applyReconOps (now : Int) (L : List BundlerJob) (o : UserOperation)
    (hok : (o.status = OpStatus.included ∨ o.status = OpStatus.failed ∨
      o.status = OpStatus.dropped) → o.completed_at ≠ none) :
    ((applyReconOps now L o).status = OpStatus.included ∨
      (applyReconOps now L o).status = OpStatus.failed ∨
      (applyReconOps now L o).status = OpStatus.dropped) →
      (applyReconOps now L o).completed_at ≠ none := by
  induction L generalizing o with
  | nil => exact hok
  | cons a T ih =>
      show ((applyReconOps now T (if o.id == a.user_operation then reconOpUpd now a o
          else o)).status = OpStatus.included ∨ _ ∨ _) → _
      refine ih _ ?_
      split
      · unfold reconOpUpd
        split
        · intro _
          rw [markStatusOp_completed_at]
          rw [if_pos (Or.inr (Or.inl rfl))]
          exact fun hc => Option.noConfusion hc
        · intro hc
          rcases hc with hc | hc | hc <;> exact absurd hc (by
            intro hx
            exact OpStatus.noConfusion hx)
      · exact hok

/-- C9 (amended): in every reachable store, an operation whose status is
terminal (Included, Failed or Dropped) has a non-null completed_at.  The
converse direction of the original claim is refuted by
C9_counterexample. -/
theorem C9_completedAt_of_terminal {s : Store} (h : Reachable s) :
    ∀ o ∈ s.ops, (o.status = OpStatus.included ∨ o.status = OpStatus.failed ∨
      o.status = OpStatus.dropped) → o.completed_at ≠ none := by
  induction h with
  | init => exact fun o ho => absurd ho (List.not_mem_nil o)
  | next hr hstep ih =>
      rename_i s t
      have hwf := reachable_wf hr
      cases hstep with
      | queue now cid sender uh nonce ep p m s =>
          intro o2 ho2 hst
          cases hf : findOpByHash s uh with
          | none =>
              rw [queueOperation_none hf now cid sender nonce ep p m] at ho2
              dsimp only at ho2
              rcases List.mem_append.mp ho2 with ho2 | ho2
              · exact ih o2 ho2 hst
              · rw [List.mem_singleton.mp ho2] at hst
                rcases hst with hc | hc | hc <;> exact absurd hc (by
                  intro hx
                  exact OpStatus.noConfusion hx)
          | some o =>
              by_cases hq : o.status = OpStatus.queued
              · rw [queueOperation_found_queued hf hq now cid sender nonce ep p m] at ho2
                exact ih o2 ho2 hst
              · rw [queueOperation_found_reset hf hq now cid sender nonce ep p m] at ho2
                dsimp only at ho2
                obtain ⟨x, hx, hxe⟩ := List.mem_map.mp ho2
                by_cases hbeq : (x.id == o.id) = true
                · rw [if_pos hbeq] at hxe
                  rw [← hxe] at hst
                  rcases hst with hc | hc | hc <;> exact absurd hc (by
                    intro hx2
                    exact OpStatus.noConfusion hx2)
                · rw [if_neg hbeq] at hxe
                  exact ih o2 (hxe ▸ hx) hst
      | dispatch now b s =>
          intro o2 ho2 hst
          rw [dispatchBatch_fst, claim_foldl now _ s
            (dispatchCandidates_idNodup hwf.2.1)] at ho2
          dsimp only at ho2
          obtain ⟨x, hx, hxe⟩ := List.mem_map.mp ho2
          rw [← hxe] at hst ⊢
          unfold applyClaimOps at hst ⊢
          split at hst
          · rcases hst with hc | hc | hc <;> exact absurd hc (by
              intro hx2
              exact OpStatus.noConfusion hx2)
          · rename_i hany
            rw [if_neg hany]
            exact ih x hx hst
      | reconcile now limit s =>
          intro o2 ho2 hst
          rw [reconcileInflight_fst, recon_foldl now _ s
            (staleSelection_idNodup hwf.2.1)] at ho2
          dsimp only at ho2
          obtain ⟨x, hx, hxe⟩ := List.mem_map.mp ho2
          rw [← hxe] at hst ⊢
          exact opOk_applyReconOps now _ x (ih x hx) hst
      | mark now jid tx s =>
          intro o2 ho2 hst
          cases hj : findJob s jid with
          | none =>
              rw [markIncluded_jobNone hj now tx] at ho2
              exact ih o2 ho2 hst
          | some job =>
              cases hop : findOp s job.user_operation with
              | none =>
                  rw [markIncluded_opNone hj hop now tx] at ho2
                  exact ih o2 ho2 hst
              | some op =>
                  rw [markIncluded_found hj hop now tx] at ho2
                  dsimp only at ho2
                  obtain ⟨x, hx, hxe⟩ := List.mem_map.mp ho2
                  by_cases hbeq : (x.id == op.id) = true
                  · rw [if_pos hbeq] at hxe
                    rw [← hxe]
                    exact fun hc => Option.noConfusion hc
                  · rw [if_neg hbeq] at hxe
                    exact ih o2 (hxe ▸ hx) hst

/-- C9 witness: the amended direction applied to a concrete reachable store
whose operation is Included with completed_at set. -/
theorem C9_completedAt_of_terminal_witness :
    (findOp cxA4 0).map (fun o => (o.status, o.completed_at)) =
      some (OpStatus.included, some 3) ∧
    ∀ o ∈ cxA4.ops, (o.status = OpStatus.included ∨ o.status = OpStatus.failed ∨
      o.status = OpStatus.dropped) → o.completed_at ≠ none :=
  ⟨by decide, C9_completedAt_of_terminal reachable_cxA4⟩

/-- C9 counterexample: cxA5 is reachable (two jobs are ingested for one hash;
the first is dispatched and marked included; the second is then dispatched)
and its operation has status Dispatched, which is not terminal, while
completed_at is still set, refuting the claimed equivalence. -/
theorem C9_counterexample :
    Reachable cxA5 ∧
    (findOp cxA5 0).map (fun o => (o.status, o.completed_at)) =
      some (OpStatus.dispatched, some 3) :=
  ⟨reachable_cxA5, by decide⟩

end BundlerGateway

namespace BundlerGateway

/-- The amended terminal-status preservation property of one store: Succeeded
jobs survive every gateway call unchanged in status; Failed jobs survive
queue_operation, dispatch_batch and reconcile_inflight; queue_operation never
changes any existing job; and mark_included preserves Included operations. -/
def C3Concl (s : Store) : Prop :=
  (∀ t, Step s t → ∀ k ∈ s.jobs, k.status = JobStatus.succeeded →
    ∀ j2 ∈ t.jobs, j2.id = k.id → j2.status = JobStatus.succeeded) ∧
  (∀ (now : Int) (cid : Nat) (sender uh nonce ep : String) (p : OpPayload) (m : Dict),
    ∀ k ∈ s.jobs, ∀ j2 ∈ (queueOperation now cid sender uh nonce ep p m s).fst.jobs,
      j2.id = k.id → j2.status = k.status) ∧
  (∀ (now : Int) (b : Nat), ∀ k ∈ s.jobs, k.status = JobStatus.failed →
    ∀ j2 ∈ (dispatchBatch now b s).fst.jobs, j2.id = k.id →
      j2.status = JobStatus.failed) ∧
  (∀ (now : Int) (limit : Nat), ∀ k ∈ s.jobs, k.status = JobStatus.failed →
    ∀ j2 ∈ (reconcileInflight now limit s).fst.jobs, j2.id = k.id →
      j2.status = JobStatus.failed) ∧
  (∀ (now : Int) (jid : Nat) (tx : String), ∀ o ∈ s.ops,
    o.status = OpStatus.included →
    ∀ o2 ∈ (markIncluded now jid tx s).fst.ops, o2.id = o.id →
      o2.status = OpStatus.included)

/-- C3 (amended): on every reachable store the amended preservation property
holds.  The original claim — that no gateway operation changes a Succeeded or
Failed job or an Included operation — is refuted by C3_counterexample:
re-ingesting the hash of an Included operation resets it to Queued (and
mark_included on a Failed job would set it to Succeeded). -/
theorem C3_terminal_status (s : Store) (hr : Reachable s) : C3Concl s := by
  have hwf := reachable_wf hr
  refine ⟨?_, ?_, ?_, ?_, ?_⟩
  · intro t hstep k hk hks j2 hj2 hid
    cases hstep with
    | queue now cid sender uh nonce ep p m s =>
        rw [queue_job_of_id hwf now cid sender uh nonce ep p m hk hj2 hid]
        exact hks
    | dispatch now b s =>
        rcases dispatch_job_of_id hwf now b hk hj2 hid with hcase | ⟨hmem, _⟩
        · rw [hcase]
          exact hks
        · rcases (dispatchCandidates_mem hmem).2 with he
          unfold eligibleJob at he
          rw [hks] at he
          exact absurd he (by decide)
    | reconcile now limit s =>
        rcases recon_job_of_id hwf now limit hk hj2 hid with hcase | ⟨hmem, _⟩
        · rw [hcase]
          exact hks
        · have hst := (staleSelection_mem hmem).2
          unfold staleAt at hst
          have hdisp := (Bool.and_eq_true _ _ |>.mp hst).1
          rw [hks] at hdisp
          exact absurd hdisp (by decide)
    | mark now jid tx s =>
        rcases mark_job_of_id hwf now jid tx hk hj2 hid with hcase | hcase
        · rw [hcase]
          exact hks
        · exact hcase
  · intro now cid sender uh nonce ep p m k hk j2 hj2 hid
    rw [queue_job_of_id hwf now cid sender uh nonce ep p m hk hj2 hid]
  · intro now b k hk hks j2 hj2 hid
    rcases dispatch_job_of_id hwf now b hk hj2 hid with hcase | ⟨hmem, _⟩
    · rw [hcase]
      exact hks
    · have he := (dispatchCandidates_mem hmem).2
      unfold eligibleJob at he
      rw [hks] at he
      exact absurd he (by decide)
  · intro now limit k hk hks j2 hj2 hid
    rcases recon_job_of_id hwf now limit hk hj2 hid with hcase | ⟨hmem, _⟩
    · rw [hcase]
      exact hks
    · have hst := (staleSelection_mem hmem).2
      unfold staleAt at hst
      have hdisp := (Bool.and_eq_true _ _ |>.mp hst).1
      rw [hks] at hdisp
      exact absurd hdisp (by decide)
  · intro now jid tx o ho hoi o2 ho2 hid
    rcases mark_op_of_id hwf now jid tx ho ho2 hid with hcase | hcase
    · rw [hcase]
      exact hoi
    · exact hcase

/-- C3 witness: the amended property applied to a concrete reachable store
holding a Succeeded job and an Included operation. -/
theorem C3_terminal_status_witness :
    ((findJob cxA4 1).map (fun j => j.status) = some JobStatus.succeeded ∧
      (findOp cxA4 0).map (fun o => o.status) = some OpStatus.included) ∧
    C3Concl cxA4 :=
  ⟨by decide, C3_terminal_status cxA4 reachable_cxA4⟩

/-- C3 counterexample: from the reachable store cxA4, whose operation is
Included, re-ingesting the same hash is a gateway step that resets the
operation status to Queued, so an Included operation does not keep its
status. -/
theorem C3_counterexample :
    Reachable cxA4 ∧
    Step cxA4 (queueCX 5 [("source", "test")] cxA4) ∧
    (findOp cxA4 0).map (fun o => o.status) = some OpStatus.included ∧
    (findOp (queueCX 5 [("source", "test")] cxA4) 0).map (fun o => o.status) =
      some OpStatus.queued :=
  ⟨reachable_cxA4,
   Step.queue 5 4202 "0xSENDER" "0xHASH" "1" "https://bundler.mock/rpc" {}
     [("source", "test")] cxA4,
   by decide, by decide⟩

end BundlerGateway

namespace BundlerGateway

/-- The exclusive-claim property for two back-to-back dispatch calls over a
store with N eligible jobs, each requesting at least N: the first call claims
exactly the N eligible jobs without duplicates, the second claims nothing, the
two claimed id sets are disjoint, and a job reaches Dispatching only from
Queued or Retrying. -/
def C1Concl (s : Store) (n1 n2 : Int) (b1 b2 : Nat) : Prop :=
  (dispatchBatch n1 b1 s).snd.job_ids.Nodup ∧
  (dispatchBatch n1 b1 s).snd.job_ids.length = (s.jobs.filter eligibleJob).length ∧
  (dispatchBatch n2 b2 (dispatchBatch n1 b1 s).fst).snd.job_ids = [] ∧
  (∀ x ∈ (dispatchBatch n1 b1 s).snd.job_ids,
    x ∉ (dispatchBatch n2 b2 (dispatchBatch n1 b1 s).fst).snd.job_ids) ∧
  (∀ k ∈ s.jobs, ∀ j2 ∈ (dispatchBatch n1 b1 s).fst.jobs, j2.id = k.id →
    j2.status = JobStatus.dispatching →
    k.status = JobStatus.dispatching ∨ k.status = JobStatus.queued ∨
      k.status = JobStatus.retrying)

/-- C1: two dispatch calls, each with batch_size at least the number of
eligible jobs, claim disjoint id sets whose union is exactly the N eligible
jobs; the claim transition starts only from Queued or Retrying.  Concurrency
is modelled by the serialisation that select_for_update(skip_locked) row locks
enforce: the two calls execute as atomic transactions in some order. -/
theorem C1_exclusive_claim (s : Store) (hwf : Wf s) (n1 n2 : Int) (b1 b2 : Nat)
    (hb1 : (s.jobs.filter eligibleJob).length ≤ b1)
    (hb2 : (s.jobs.filter eligibleJob).length ≤ b2) :
    C1Concl s n1 n2 b1 b2 := by
  have hperm : (dispatchCandidates b1 s).Perm (s.jobs.filter eligibleJob) :=
    dispatchCandidates_all hb1
  have hempty : (dispatchBatch n1 b1 s).fst.jobs.filter eligibleJob = [] := by
    rw [List.filter_eq_nil]
    intro k2 hk2
    rw [dispatchBatch_fst, claim_foldl n1 _ s (dispatchCandidates_idNodup hwf.2.1)]
      at hk2
    dsimp only at hk2
    obtain ⟨k, hk, hke⟩ := List.mem_map.mp hk2
    cases helig : eligibleJob k with
    | true =>
        have hmem : k ∈ dispatchCandidates b1 s :=
          hperm.mem_iff.mpr (List.mem_filter.mpr ⟨hk, helig⟩)
        rw [applyClaimJobs_eq_of_mem hwf.2.1
          (fun j hj => (dispatchCandidates_mem hj).1) n1 hk hmem] at hke
        rw [← hke]
        intro hc
        exact Bool.noConfusion hc
    | false =>
        have hnmem : k ∉ dispatchCandidates b1 s := by
          intro hc
          rw [(dispatchCandidates_mem hc).2] at helig
          exact Bool.noConfusion helig
        rw [applyClaimJobs_eq_self_of_not_mem hwf.2.1
          (fun j hj => (dispatchCandidates_mem hj).1) n1 hk hnmem] at hke
        rw [← hke]
        intro hc
        rw [helig] at hc
        exact Bool.noConfusion hc
  have hsecond : (dispatchBatch n2 b2 (dispatchBatch n1 b1 s).fst).snd.job_ids = [] := by
    rw [dispatchBatch_snd_ids]
    unfold dispatchCandidates
    rw [hempty, show List.insertionSort jobLe ([] : List BundlerJob) = [] from rfl,
      List.take_nil, List.map_nil]
  refine ⟨?_, ?_, hsecond, ?_, ?_⟩
  · rw [dispatchBatch_snd_ids]
    exact dispatchCandidates_idNodup hwf.2.1
  · rw [dispatchBatch_snd_ids, List.length_map]
    exact hperm.length_eq
  · intro x _
    rw [hsecond]
    exact List.not_mem_nil x
  · intro k hk j2 hj2 hid hdisp
    rcases dispatch_job_of_id hwf n1 b1 hk hj2 hid with hcase | ⟨hmem, _⟩
    · rw [hcase] at hdisp
      exact Or.inl hdisp
    · have he := (dispatchCandidates_mem hmem).2
      unfold eligibleJob at he
      rcases Bool.or_eq_true _ _ |>.mp he with hq | hr
      · exact Or.inr (Or.inl (eq_of_beq hq))
      · exact Or.inr (Or.inr (eq_of_beq hr))

/-- C1 witness: the property applied to a concrete well-formed store with two
eligible jobs and two dispatch calls of batch sizes 2 and 3. -/
theorem C1_exclusive_claim_witness :
    (Wf cxA2 ∧ (cxA2.jobs.filter eligibleJob).length ≤ 2 ∧
      (cxA2.jobs.filter eligibleJob).length ≤ 3) ∧ C1Concl cxA2 7 8 2 3 :=
  ⟨⟨by decide, by decide, by decide⟩,
   C1_exclusive_claim cxA2 (by decide) 7 8 2 3 (by decide) (by decide)⟩

end BundlerGateway

namespace BundlerGateway

/-- The frame property of re-ingestion: when the hash already exists, the
supplied chain id, sender, nonce, payload and metadata are ignored — every
field of every existing operation other than status, failure_reason,
completed_at and updated_at is unchanged; if the existing operation is already
Queued, the operations table is not written at all; and a new queued job and a
queued event are still appended, referencing the existing operation. -/
def C10Concl (s : Store) (now : Int) (cid : Nat) (sender uh nonce ep : String)
    (p : OpPayload) (m : Dict) : Prop :=
  (∀ x ∈ s.ops, ∃ x2 ∈ (queueOperation now cid sender uh nonce ep p m s).fst.ops,
    x2.id = x.id ∧ x2.chain_id = x.chain_id ∧ x2.sender = x.sender ∧
    x2.wallet = x.wallet ∧ x2.user = x.user ∧ x2.user_op_hash = x.user_op_hash ∧
    x2.nonce = x.nonce ∧ x2.call_data = x.call_data ∧
    x2.call_gas_limit = x.call_gas_limit ∧
    x2.verification_gas_limit = x.verification_gas_limit ∧
    x2.pre_verification_gas = x.pre_verification_gas ∧
    x2.max_fee_per_gas = x.max_fee_per_gas ∧
    x2.max_priority_fee_per_gas = x.max_priority_fee_per_gas ∧
    x2.paymaster = x.paymaster ∧ x2.metadata = x.metadata ∧
    x2.queued_at = x.queued_at ∧ (x.user_op_hash ≠ uh → x2 = x)) ∧
  ((∃ o0 ∈ s.ops, o0.user_op_hash = uh ∧ o0.status = OpStatus.queued) →
    (queueOperation now cid sender uh nonce ep p m s).fst.ops = s.ops) ∧
  (∃ jb, (queueOperation now cid sender uh nonce ep p m s).fst.jobs =
      s.jobs ++ [jb] ∧
    jb.status = JobStatus.queued ∧ jb.attempt_count = 0 ∧
    (∃ o0 ∈ s.ops, o0.user_op_hash = uh ∧ jb.user_operation = o0.id) ∧
    ∃ ev, (queueOperation now cid sender uh nonce ep p m s).fst.events =
      s.events ++ [ev] ∧ ev.event_type = "queued" ∧
      ev.user_operation = jb.user_operation)

/-- C10: re-ingesting an existing hash ignores the newly supplied fields,
skips the operation write entirely when the operation is already Queued, and
still creates the new job and queued event. -/
theorem C10_reingestion_frame (s : Store) (hwf : Wf s) (o0 : UserOperation)
    (now : Int) (cid : Nat) (sender uh nonce ep : String) (p : OpPayload) (m : Dict)
    (ho : o0 ∈ s.ops) (hh : o0.user_op_hash = uh) :
    C10Concl s now cid sender uh nonce ep p m := by
  have hf : findOpByHash s uh = some o0 := findOpByHash_eq_of_mem hwf.2.2.1 ho hh
  by_cases hq : o0.status = OpStatus.queued
  · rw [C10Concl, queueOperation_found_queued hf hq now cid sender nonce ep p m]
    dsimp only
    refine ⟨?_, fun _ => rfl, ?_⟩
    · intro x hx
      exact ⟨x, hx, rfl, rfl, rfl, rfl, rfl, rfl, rfl, rfl, rfl, rfl, rfl, rfl, rfl,
        rfl, rfl, rfl, fun _ => rfl⟩
    · exact ⟨initialJob now s.next_id o0.id ep, rfl, rfl, rfl, ⟨o0, ho, hh, rfl⟩,
        queuedEvent now (s.next_id + 1) o0.id ep, rfl, rfl, rfl⟩
  · rw [C10Concl, queueOperation_found_reset hf hq now cid sender nonce ep p m]
    dsimp only
    refine ⟨?_, ?_, ?_⟩
    · intro x hx
      refine ⟨(fun y => if y.id == o0.id then requeueOpUpd now y else y) x,
        List.mem_map.mpr ⟨x, hx, rfl⟩, ?_⟩
      dsimp only
      by_cases hbeq : (x.id == o0.id) = true
      · rw [if_pos hbeq]
        refine ⟨rfl, rfl, rfl, rfl, rfl, rfl, rfl, rfl, rfl, rfl, rfl, rfl, rfl, rfl,
          rfl, rfl, ?_⟩
        intro hxh
        exact absurd (by
          rw [List.inj_on_of_nodup_map hwf.1 hx ho (eq_of_beq hbeq), hh]) hxh
      · rw [if_neg hbeq]
        exact ⟨rfl, rfl, rfl, rfl, rfl, rfl, rfl, rfl, rfl, rfl, rfl, rfl, rfl, rfl,
          rfl, rfl, fun _ => rfl⟩
    · intro ⟨oq, hoq, hoqh, hoqs⟩
      have : oq = o0 := pairwise_hash_eq hwf.2.2.1 hoq ho (by rw [hoqh, hh])
      rw [this] at hoqs
      exact absurd hoqs hq
    · exact ⟨initialJob now s.next_id o0.id ep, rfl, rfl, rfl, ⟨o0, ho, hh, rfl⟩,
        queuedEvent now (s.next_id + 1) o0.id ep, rfl, rfl, rfl⟩

/-- C10 witness: re-ingesting the hash of the queued operation of a concrete
store with different sender, nonce, payload and metadata. -/
theorem C10_reingestion_frame_witness :
    (Wf cxA1 ∧ (newOperation 0 0 4202 "0xSENDER" "0xHASH" "1" {} [("source", "test")])
        ∈ cxA1.ops ∧
      (newOperation 0 0 4202 "0xSENDER" "0xHASH" "1" {}
        [("source", "test")]).user_op_hash = "0xHASH") ∧
    C10Concl cxA1 9 999 "0xOTHER" "0xHASH" "7" "https://other.mock/rpc"
      { call_gas_limit := 21000 } [("k", "v")] :=
  ⟨⟨by decide, by decide, by decide⟩,
   C10_reingestion_frame cxA1 (by decide)
     (newOperation 0 0 4202 "0xSENDER" "0xHASH" "1" {} [("source", "test")])
     9 999 "0xOTHER" "0xHASH" "7" "https://other.mock/rpc"
     { call_gas_limit := 21000 } [("k", "v")] (by decide) (by decide)⟩

end BundlerGateway

namespace BundlerGateway

/-- The idempotent-ingestion property: after two queue calls with the same
hash exactly one operation with that hash exists; an ingestion call that finds
the hash bound to a non-Queued operation resets it to Queued with
failure_reason cleared and completed_at nulled, preserving id and hash; and
the second call appends one fresh Queued job with attempt_count 0 referencing
the operation with that hash, together with one queued event. -/
def C2Concl (s : Store) (uh : String) (n1 : Int) (cid1 : Nat) (sd1 nn1 ep1 : String)
    (p1 : OpPayload) (m1 : Dict) (n2 : Int) (cid2 : Nat) (sd2 nn2 ep2 : String)
    (p2 : OpPayload) (m2 : Dict) : Prop :=
  ((queueOperation n2 cid2 sd2 uh nn2 ep2 p2 m2
      (queueOperation n1 cid1 sd1 uh nn1 ep1 p1 m1 s).fst).fst.ops.countP
    (fun o => o.user_op_hash == uh) = 1) ∧
  (∀ op ∈ s.ops, op.user_op_hash = uh → op.status ≠ OpStatus.queued →
    ∃ op2 ∈ (queueOperation n1 cid1 sd1 uh nn1 ep1 p1 m1 s).fst.ops,
      op2.id = op.id ∧ op2.user_op_hash = op.user_op_hash ∧
      op2.status = OpStatus.queued ∧ op2.failure_reason = "" ∧
      op2.completed_at = none) ∧
  (∃ op1, findOpByHash (queueOperation n1 cid1 sd1 uh nn1 ep1 p1 m1 s).fst uh =
      some op1 ∧ op1.user_op_hash = uh ∧
    ∃ jb, (queueOperation n2 cid2 sd2 uh nn2 ep2 p2 m2
        (queueOperation n1 cid1 sd1 uh nn1 ep1 p1 m1 s).fst).fst.jobs =
      (queueOperation n1 cid1 sd1 uh nn1 ep1 p1 m1 s).fst.jobs ++ [jb] ∧
      jb.status = JobStatus.queued ∧ jb.attempt_count = 0 ∧
      jb.user_operation = op1.id ∧
      ∃ ev, (queueOperation n2 cid2 sd2 uh nn2 ep2 p2 m2
          (queueOperation n1 cid1 sd1 uh nn1 ep1 p1 m1 s).fst).fst.events =
        (queueOperation n1 cid1 sd1 uh nn1 ep1 p1 m1 s).fst.events ++ [ev] ∧
        ev.event_type = "queued" ∧ ev.user_operation = op1.id)

/-- C2: ingesting the same hash twice never creates two operations; the
second call creates a fresh job and event for the same operation, and a
non-Queued operation found by an ingestion call is reset to Queued. -/
theorem C2_idempotent_ingestion (s : Store) (hwf : Wf s) (uh : String) (n1 : Int)
    (cid1 : Nat) (sd1 nn1 ep1 : String) (p1 : OpPayload) (m1 : Dict) (n2 : Int)
    (cid2 : Nat) (sd2 nn2 ep2 : String) (p2 : OpPayload) (m2 : Dict) :
    C2Concl s uh n1 cid1 sd1 nn1 ep1 p1 m1 n2 cid2 sd2 nn2 ep2 p2 m2 := by
  have hwf1 : Wf (queueOperation n1 cid1 sd1 uh nn1 ep1 p1 m1 s).fst :=
    wf_queueOperation n1 cid1 sd1 uh nn1 ep1 p1 m1 hwf
  have hwf2 : Wf (queueOperation n2 cid2 sd2 uh nn2 ep2 p2 m2
      (queueOperation n1 cid1 sd1 uh nn1 ep1 p1 m1 s).fst).fst :=
    wf_queueOperation n2 cid2 sd2 uh nn2 ep2 p2 m2 hwf1
  obtain ⟨x1, hx1, hxh1⟩ := queue_hash_exists n1 cid1 sd1 uh nn1 ep1 p1 m1 s
  have hf1 : findOpByHash (queueOperation n1 cid1 sd1 uh nn1 ep1 p1 m1 s).fst uh =
      some x1 := findOpByHash_eq_of_mem hwf1.2.2.1 hx1 hxh1
  refine ⟨?_, ?_, ?_⟩
  · exact countP_hash_one hwf2.2.2.1
      (queue_hash_exists n2 cid2 sd2 uh nn2 ep2 p2 m2 _)
  · intro op hop hoph hopq
    have hf : findOpByHash s uh = some op := findOpByHash_eq_of_mem hwf.2.2.1 hop hoph
    rw [queueOperation_found_reset hf hopq n1 cid1 sd1 nn1 ep1 p1 m1]
    dsimp only
    refine ⟨(fun y => if y.id == op.id then requeueOpUpd n1 y else y) op,
      List.mem_map.mpr ⟨op, hop, rfl⟩, ?_⟩
    dsimp only
    rw [if_pos (beq_self_eq_true op.id)]
    exact ⟨rfl, rfl, rfl, rfl, rfl⟩
  · refine ⟨x1, hf1, hxh1, ?_⟩
    by_cases hq : x1.status = OpStatus.queued
    · rw [queueOperation_found_queued hf1 hq n2 cid2 sd2 nn2 ep2 p2 m2]
      exact ⟨initialJob n2 (queueOperation n1 cid1 sd1 uh nn1 ep1 p1 m1 s).fst.next_id
        x1.id ep2, rfl, rfl, rfl, rfl,
        queuedEvent n2 ((queueOperation n1 cid1 sd1 uh nn1 ep1 p1 m1 s).fst.next_id + 1)
          x1.id ep2, rfl, rfl, rfl⟩
    · rw [queueOperation_found_reset hf1 hq n2 cid2 sd2 nn2 ep2 p2 m2]
      exact ⟨initialJob n2 (queueOperation n1 cid1 sd1 uh nn1 ep1 p1 m1 s).fst.next_id
        x1.id ep2, rfl, rfl, rfl, rfl,
        queuedEvent n2 ((queueOperation n1 cid1 sd1 uh nn1 ep1 p1 m1 s).fst.next_id + 1)
          x1.id ep2, rfl, rfl, rfl⟩

/-- C2 witness: two ingestions of the same hash against a concrete store
whose operation with that hash is currently Dispatched (not Queued). -/
theorem C2_idempotent_ingestion_witness :
    Wf cxB6 ∧
    C2Concl cxB6 "0xHASH" 50 4202 "0xSENDER" "1" "https://bundler.mock/rpc" {} []
      60 5555 "0xELSE" "2" "https://other.mock/rpc" {} [("a", "b")] :=
  ⟨by decide,
   C2_idempotent_ingestion cxB6 (by decide) "0xHASH" 50 4202 "0xSENDER" "1"
     "https://bundler.mock/rpc" {} [] 60 5555 "0xELSE" "2" "https://other.mock/rpc"
     {} [("a", "b")]⟩

end BundlerGateway

namespace BundlerGateway

/-- The completion-handler contract: NotFound exactly when the job id does not
exist, with the store unchanged; otherwise the job becomes Succeeded with
last_error cleared, the parent operation becomes Included with completed_at
set to now, the key tx_hash is merged into its metadata preserving every other
pre-existing pair, untouched rows survive unchanged, and exactly one included
event with payload {job_id, tx_hash} is appended. -/
def C4Concl (s : Store) (now : Int) (jid : Nat) (tx : String) : Prop :=
  ((markIncluded now jid tx s).snd = MarkOutcome.notFound ↔ findJob s jid = none) ∧
  (findJob s jid = none → (markIncluded now jid tx s).fst = s) ∧
  (∀ job, findJob s jid = some job →
    (markIncluded now jid tx s).snd = MarkOutcome.success ∧
    (∃ j2 ∈ (markIncluded now jid tx s).fst.jobs, j2.id = job.id ∧
      j2.status = JobStatus.succeeded ∧ j2.last_error = "" ∧
      j2.attempt_count = job.attempt_count ∧ j2.user_operation = job.user_operation ∧
      j2.target_endpoint = job.target_endpoint) ∧
    (∀ k ∈ s.jobs, k.id ≠ job.id → k ∈ (markIncluded now jid tx s).fst.jobs) ∧
    (∃ op ∈ s.ops, op.id = job.user_operation ∧
      ∃ o2 ∈ (markIncluded now jid tx s).fst.ops, o2.id = op.id ∧
        o2.status = OpStatus.included ∧ o2.completed_at = some now ∧
        o2.user_op_hash = op.user_op_hash ∧
        ("tx_hash", tx) ∈ o2.metadata ∧
        (∀ kv ∈ op.metadata, kv.fst ≠ "tx_hash" → kv ∈ o2.metadata) ∧
        (∀ kv ∈ o2.metadata, kv = ("tx_hash", tx) ∨
          (kv ∈ op.metadata ∧ kv.fst ≠ "tx_hash"))) ∧
    (∀ o ∈ s.ops, o.id ≠ job.user_operation →
      o ∈ (markIncluded now jid tx s).fst.ops) ∧
    (∃ ev, (markIncluded now jid tx s).fst.events = s.events ++ [ev] ∧
      ev.event_type = "included" ∧
      ev.payload = [("job_id", toString job.id), ("tx_hash", tx)] ∧
      ev.user_operation = job.user_operation))

/-- C4 (amended): mark_included fails with NotFound leaving the store
unchanged exactly when the job id is unknown; otherwise it updates job,
operation, metadata and event log as specified, preserving every pre-existing
metadata key and the value of every key other than tx_hash.  A pre-existing
tx_hash value is overwritten, refuting the original wording
(C4_counterexample). -/
theorem C4_mark_included_contract (s : Store) (hwf : Wf s) (now : Int) (jid : Nat)
    (tx : String) : C4Concl s now jid tx := by
  have hopfind : ∀ job, findJob s jid = some job →
      ∃ op, findOp s job.user_operation = some op ∧ op.id = job.user_operation := by
    intro job hj
    obtain ⟨o, ho, hid⟩ := hwf.2.2.2.2.2 job (List.mem_of_find?_eq_some hj)
    cases hfo : findOp s job.user_operation with
    | none =>
        exact absurd (by rw [hid]; exact beq_self_eq_true job.user_operation)
          (List.find?_eq_none.mp hfo o ho)
    | some op =>
        have hfo2 : s.ops.find? (fun o => o.id == job.user_operation) = some op := hfo
        have hb := List.find?_some hfo2
        exact ⟨op, rfl, eq_of_beq hb⟩
  refine ⟨?_, ?_, ?_⟩
  · constructor
    · intro hnf
      cases hj : findJob s jid with
      | none => rfl
      | some job =>
          obtain ⟨op, hfo, _⟩ := hopfind job hj
          rw [markIncluded_found hj hfo now tx] at hnf
          exact absurd hnf (by
            intro hc
            exact MarkOutcome.noConfusion hc)
    · intro hnone
      rw [markIncluded_jobNone hnone now tx]
  · intro hnone
    rw [markIncluded_jobNone hnone now tx]
  · intro job hj
    obtain ⟨op, hfo, hopid⟩ := hopfind job hj
    have hjobmem : job ∈ s.jobs := List.mem_of_find?_eq_some hj
    have hopmem : op ∈ s.ops := List.mem_of_find?_eq_some hfo
    rw [markIncluded_found hj hfo now tx]
    dsimp only
    refine ⟨rfl, ?_, ?_, ?_, ?_, ?_⟩
    · refine ⟨{ job with
          status := JobStatus.succeeded
          last_error := ""
          updated_at := now },
        List.mem_map.mpr ⟨job, hjobmem, ?_⟩, rfl, rfl, rfl, rfl, rfl, rfl⟩
      rw [if_pos (beq_self_eq_true job.id)]
    · intro k hk hkne
      refine List.mem_map.mpr ⟨k, hk, ?_⟩
      rw [if_neg (by
        intro hc
        exact hkne (eq_of_beq hc))]
    · refine ⟨op, hopmem, hopid, ?_⟩
      refine ⟨{ op with
          status := OpStatus.included
          metadata := dictSet op.metadata "tx_hash" tx
          completed_at := some now
          updated_at := now },
        List.mem_map.mpr ⟨op, hopmem, ?_⟩, rfl, rfl, rfl, rfl, ?_, ?_, ?_⟩
      · rw [if_pos (beq_self_eq_true op.id)]
      · exact dictSet_mem_self op.metadata "tx_hash" tx
      · exact fun kv hkv hne => dictSet_mem_of_ne hkv hne tx
      · exact fun kv hkv => dictSet_mem_cases hkv
    · intro o ho hone
      refine List.mem_map.mpr ⟨o, ho, ?_⟩
      rw [if_neg (by
        intro hc
        exact hone (by rw [eq_of_beq hc, hopid]))]
    · refine ⟨_, rfl, rfl, rfl, hopid⟩

/-- C4 witness: the contract applied to a concrete store, both at a missing
job id and at an existing one. -/
theorem C4_mark_included_contract_witness :
    (Wf cxA3 ∧ Wf cxD2) ∧ C4Concl cxA3 3 99 "0xTX" ∧ C4Concl cxD2 2 1 "0xNEW" :=
  ⟨⟨by decide, by decide⟩, C4_mark_included_contract cxA3 (by decide) 3 99 "0xTX",
   C4_mark_included_contract cxD2 (by decide) 2 1 "0xNEW"⟩

/-- C4 counterexample: on the reachable store cxD2 the operation already owns
the metadata pair (tx_hash, 0xOLD); mark_included with transaction hash 0xNEW
leaves metadata [(tx_hash, 0xNEW)], so the pre-existing value is not
preserved. -/
theorem C4_counterexample :
    Reachable cxD2 ∧
    (findOp cxD2 0).map (fun o => o.metadata) = some [("tx_hash", "0xOLD")] ∧
    cxD3 = (markIncluded 2 1 "0xNEW" cxD2).fst ∧
    (findOp cxD3 0).map (fun o => o.metadata) = some [("tx_hash", "0xNEW")] :=
  ⟨(Reachable.init.next
      (Step.queue 0 4202 "0xSENDER" "0xHASH" "1" "https://bundler.mock/rpc" {}
        [("tx_hash", "0xOLD")] emptyStore)).next
      (Step.dispatch 1 1 cxD1),
   by decide, rfl, by decide⟩

end BundlerGateway

namespace BundlerGateway

/-- The dispatch contract: the returned job ids are exactly the claimed
candidates in claim order; the candidates are the first min(batch_size, N)
eligible jobs in (priority, enqueued_at) order; every claimed job gets
attempt_count incremented by one, last_attempt_at set to now, last_error
cleared and status Dispatching with every other field untouched; every
claimed job's operation becomes Dispatched; unclaimed rows survive unchanged;
and one dispatching event per claimed job is appended in order. -/
def C7Concl (s : Store) (now : Int) (b : Nat) : Prop :=
  ((dispatchBatch now b s).snd.job_ids =
    (dispatchCandidates b s).map (fun j => j.id)) ∧
  ((dispatchCandidates b s).length = min b (s.jobs.filter eligibleJob).length) ∧
  (∀ j ∈ dispatchCandidates b s, j ∈ s.jobs ∧
    (j.status = JobStatus.queued ∨ j.status = JobStatus.retrying)) ∧
  (dispatchCandidates b s).Pairwise jobLe ∧
  (∀ y ∈ s.jobs, eligibleJob y = true → y ∉ dispatchCandidates b s →
    ∀ x ∈ dispatchCandidates b s, jobLe x y) ∧
  (∀ k ∈ s.jobs, k ∈ dispatchCandidates b s →
    ∃ k2 ∈ (dispatchBatch now b s).fst.jobs, k2.id = k.id ∧
      k2.status = JobStatus.dispatching ∧ k2.attempt_count = k.attempt_count + 1 ∧
      k2.last_attempt_at = some now ∧ k2.last_error = "" ∧
      k2.user_operation = k.user_operation ∧ k2.target_endpoint = k.target_endpoint ∧
      k2.priority = k.priority ∧ k2.enqueued_at = k.enqueued_at) ∧
  (∀ k ∈ s.jobs, k ∉ dispatchCandidates b s → k ∈ (dispatchBatch now b s).fst.jobs) ∧
  (∀ o ∈ s.ops, (∃ j ∈ dispatchCandidates b s, j.user_operation = o.id) →
    ∃ o2 ∈ (dispatchBatch now b s).fst.ops, o2.id = o.id ∧
      o2.status = OpStatus.dispatched ∧ o2.user_op_hash = o.user_op_hash) ∧
  (∀ o ∈ s.ops, (∀ j ∈ dispatchCandidates b s, j.user_operation ≠ o.id) →
    o ∈ (dispatchBatch now b s).fst.ops) ∧
  ((dispatchBatch now b s).fst.events =
    s.events ++ eventsFrom (claimEvent now) s.next_id (dispatchCandidates b s)) ∧
  ((dispatchBatch now b s).fst.events.length =
    s.events.length + (dispatchCandidates b s).length)

/-- C7: dispatch_batch claims exactly the first min(batch_size, N) eligible
jobs in (priority ascending, enqueued_at ascending) order and performs
exactly the per-job and per-operation updates of the source, returning the
ids in claim order. -/
theorem C7_dispatch_contract (s : Store) (hwf : Wf s) (now : Int) (b : Nat) :
    C7Concl s now b := by
  have hLsub : ∀ j ∈ dispatchCandidates b s, j ∈ s.jobs :=
    fun j hj => (dispatchCandidates_mem hj).1
  have hfold := claim_foldl now (dispatchCandidates b s) s
    (dispatchCandidates_idNodup hwf.2.1)
  refine ⟨dispatchBatch_snd_ids now b s, dispatchCandidates_length b s, ?_,
    dispatchCandidates_pairwise b s, ?_, ?_, ?_, ?_, ?_, ?_, ?_⟩
  · intro j hj
    refine ⟨hLsub j hj, ?_⟩
    have he := (dispatchCandidates_mem hj).2
    unfold eligibleJob at he
    rcases Bool.or_eq_true _ _ |>.mp he with hq | hr
    · exact Or.inl (eq_of_beq hq)
    · exact Or.inr (eq_of_beq hr)
  · intro y hy hye hny x hx
    exact dispatchCandidates_min hx hy hye hny
  · intro k hk hmem
    rw [dispatchBatch_fst, hfold]
    dsimp only
    refine ⟨applyClaimJobs now (dispatchCandidates b s) k,
      List.mem_map.mpr ⟨k, hk, rfl⟩, ?_⟩
    rw [applyClaimJobs_eq_of_mem hwf.2.1 hLsub now hk hmem]
    exact ⟨rfl, rfl, rfl, rfl, rfl, rfl, rfl, rfl, rfl⟩
  · intro k hk hmem
    rw [dispatchBatch_fst, hfold]
    dsimp only
    refine List.mem_map.mpr ⟨k, hk, ?_⟩
    exact applyClaimJobs_eq_self_of_not_mem hwf.2.1 hLsub now hk hmem
  · intro o ho hex
    rw [dispatchBatch_fst, hfold]
    dsimp only
    refine ⟨applyClaimOps now (dispatchCandidates b s) o,
      List.mem_map.mpr ⟨o, ho, rfl⟩, ?_⟩
    rw [applyClaimOps_eq_upd_of_mem now hex]
    exact ⟨rfl, rfl, rfl⟩
  · intro o ho hnone
    rw [dispatchBatch_fst, hfold]
    dsimp only
    refine List.mem_map.mpr ⟨o, ho, ?_⟩
    exact applyClaimOps_eq_self now hnone
  · rw [dispatchBatch_fst, hfold]
  · rw [dispatchBatch_fst, hfold]
    dsimp only
    rw [List.length_append, eventsFrom_length]

/-- C7 witness: the dispatch contract applied to a concrete store with two
eligible jobs and batch_size 1, so that both the claimed and the unclaimed
branches are exercised. -/
theorem C7_dispatch_contract_witness :
    Wf cxA2 ∧ C7Concl cxA2 5 1 :=
  ⟨by decide, C7_dispatch_contract cxA2 (by decide) 5 1⟩

end BundlerGateway

namespace BundlerGateway

theorem reconcileInflight_snd (now : Int) (limit : Nat) (s : Store) :
    (reconcileInflight now limit s).snd =
      { processed := (staleSelection now limit s).length
        requeued := ((staleSelection now limit s).filter
          (fun j => decide (j.attempt_count < 3))).length
        failed := ((staleSelection now limit s).filter
          (fun j => decide (3 ≤ j.attempt_count))).length } := by
  unfold reconcileInflight
  dsimp only
  split
  · rename_i hemp
    rw [List.isEmpty_iff.mp hemp]
    rfl
  · rfl

theorem eventsFrom_exists (f : Nat → BundlerJob → UserOperationEvent) (base : Nat)
    {L : List BundlerJob} {j : BundlerJob} (hj : j ∈ L) :
    ∃ e ∈ eventsFrom f base L, ∃ b2, e = f b2 j := by
  induction L generalizing base with
  | nil => exact absurd hj (List.not_mem_nil j)
  | cons a T ih =>
      rcases List.mem_cons.mp hj with hja | hjT
      · exact ⟨f base a, List.mem_cons_self _ _, base, by rw [hja]⟩
      · obtain ⟨e, he, b2, hb2⟩ := ih (base + 1) hjT
        exact ⟨e, List.mem_cons_of_mem _ he, b2, hb2⟩

theorem decide_lt_eq_not_ge (n : Nat) : decide (n < 3) = !decide (3 ≤ n) := by
  by_cases h : n < 3
  · rw [decide_eq_true h, decide_eq_false (Nat.not_le.mpr h), Bool.not_false]
  · rw [decide_eq_false h, decide_eq_true (Nat.not_lt.mp h), Bool.not_true]

theorem failReason_ne_empty (j : BundlerJob) : failReason j ≠ "" := by
  unfold failReason
  split
  · intro hc
    exact absurd hc (by decide)
  · rename_i h
    exact h

end BundlerGateway

namespace BundlerGateway

/-- The reconciler contract for the requeue path: the examined jobs are
exactly the Dispatching jobs with last_attempt_at older than now minus five
minutes, oldest first, capped at limit; each examined job with fewer than
three attempts becomes Retrying, and — when no other examined job references
the same operation — its operation is set back to Queued; one requeued event
per examined job is appended; the returned counts satisfy
processed = requeued + failed; and a call that finds nothing returns zeros
with the store untouched. -/
def C6Concl (s : Store) (now : Int) (limit : Nat) : Prop :=
  (∀ j ∈ staleSelection now limit s, j ∈ s.jobs ∧ j.status = JobStatus.dispatching ∧
    ∃ t, j.last_attempt_at = some t ∧ t < now - 300) ∧
  ((staleSelection now limit s).length =
    min limit (s.jobs.filter (staleAt (staleCutoff now))).length) ∧
  (staleSelection now limit s).Pairwise attemptLe ∧
  (∀ y ∈ s.jobs, staleAt (staleCutoff now) y = true →
    y ∉ staleSelection now limit s → ∀ x ∈ staleSelection now limit s,
      attemptLe x y) ∧
  (∀ j ∈ staleSelection now limit s, j.attempt_count < 3 →
    (∃ j2 ∈ (reconcileInflight now limit s).fst.jobs, j2.id = j.id ∧
      j2.status = JobStatus.retrying ∧ j2.attempt_count = j.attempt_count) ∧
    (∃ e ∈ eventsFrom (reconEvent now) s.next_id (staleSelection now limit s),
      e.event_type = "requeued" ∧ e.payload = [("job_id", toString j.id)] ∧
      e.user_operation = j.user_operation) ∧
    ((∀ x ∈ staleSelection now limit s, x.user_operation = j.user_operation → x = j) →
      ∀ o ∈ s.ops, o.id = j.user_operation →
        ∃ o2 ∈ (reconcileInflight now limit s).fst.ops, o2.id = o.id ∧
          o2.status = OpStatus.queued)) ∧
  ((reconcileInflight now limit s).fst.events =
    s.events ++ eventsFrom (reconEvent now) s.next_id (staleSelection now limit s)) ∧
  ((reconcileInflight now limit s).snd.processed =
    (reconcileInflight now limit s).snd.requeued +
      (reconcileInflight now limit s).snd.failed ∧
   (reconcileInflight now limit s).snd.processed =
    (staleSelection now limit s).length) ∧
  (staleSelection now limit s = [] →
    (reconcileInflight now limit s).snd =
      { processed := 0, requeued := 0, failed := 0 } ∧
    (reconcileInflight now limit s).fst = s)

/-- C6 (amended): the reconciler examines exactly the stale Dispatching jobs,
oldest first, capped at limit; a job under the retry limit becomes Retrying
with a requeued event, and its operation is set back to Queued provided no
other examined sibling references the same operation (a later sibling can
override the operation status, see C6_counterexample); the counts satisfy
processed = requeued + failed and an empty scan returns zeros. -/
theorem C6_reconcile_requeue (s : Store) (hwf : Wf s) (now : Int) (limit : Nat) :
    C6Concl s now limit := by
  have hLsub : ∀ j ∈ staleSelection now limit s, j ∈ s.jobs :=
    fun j hj => (staleSelection_mem hj).1
  have hnd : ((staleSelection now limit s).map (fun j => j.id)).Nodup :=
    staleSelection_idNodup hwf.2.1
  have hfold := recon_foldl now (staleSelection now limit s) s hnd
  refine ⟨?_, staleSelection_length now limit s, staleSelection_pairwise now limit s,
    ?_, ?_, ?_, ?_, ?_⟩
  · intro j hj
    refine ⟨hLsub j hj, ?_⟩
    have hst := (staleSelection_mem hj).2
    unfold staleAt at hst
    obtain ⟨h1, h2⟩ := Bool.and_eq_true _ _ |>.mp hst
    refine ⟨eq_of_beq h1, ?_⟩
    cases hla : j.last_attempt_at with
    | none =>
        rw [hla] at h2
        exact absurd h2 (by
          intro hc
          exact Bool.noConfusion hc)
    | some t =>
        rw [hla] at h2
        exact ⟨t, rfl, of_decide_eq_true h2⟩
  · intro y hy hye hny x hx
    exact staleSelection_min hx hy hye hny
  · intro j hj hatt
    have hmem := hj
    refine ⟨?_, ?_, ?_⟩
    · rw [reconcileInflight_fst, hfold]
      dsimp only
      refine ⟨applyReconJobs now (staleSelection now limit s) j,
        List.mem_map.mpr ⟨j, hLsub j hj, rfl⟩, ?_⟩
      rw [applyReconJobs_eq_of_mem hwf.2.1 hLsub now (hLsub j hj) hmem]
      unfold reconJobUpd
      rw [if_neg (Nat.not_le.mpr hatt)]
      exact ⟨rfl, rfl, rfl⟩
    · obtain ⟨e, he, b2, hb2⟩ := eventsFrom_exists (reconEvent now) s.next_id hj
      refine ⟨e, he, ?_⟩
      rw [hb2]
      unfold reconEvent
      rw [if_neg (Nat.not_le.mpr hatt)]
      exact ⟨rfl, rfl, rfl⟩
    · intro huniq o ho hoid
      rw [reconcileInflight_fst, hfold]
      dsimp only
      refine ⟨applyReconOps now (staleSelection now limit s) o,
        List.mem_map.mpr ⟨o, ho, rfl⟩, ?_⟩
      rw [applyReconOps_single now hnd hmem huniq hoid]
      unfold reconOpUpd
      rw [if_neg (Nat.not_le.mpr hatt)]
      exact ⟨rfl, rfl⟩
  · rw [reconcileInflight_fst, hfold]
  · rw [reconcileInflight_snd]
    dsimp only
    refine ⟨?_, rfl⟩
    exact (filter_split_length _ _ _
      (fun x _ => decide_lt_eq_not_ge x.attempt_count)).symm
  · intro hempty
    constructor
    · rw [reconcileInflight_snd, hempty]
      rfl
    · rw [reconcileInflight_fst, hempty]
      rfl

/-- C6 witness: the requeue contract applied to a concrete store with one
stale Dispatching job at attempt_count 1. -/
theorem C6_reconcile_requeue_witness :
    Wf cxB2 ∧ C6Concl cxB2 1000 5 :=
  ⟨by decide, C6_reconcile_requeue cxB2 (by decide) 1000 5⟩

/-- C6 counterexample: in the reachable store cxC8 the final reconcile
examines job 4 (attempt_count 2, older) and job 1 (attempt_count 3, newer) of
the same operation; job 4 is requeued first, but the later failure of job 1
leaves the operation Failed, not Queued. -/
theorem C6_counterexample :
    Reachable cxC8 ∧
    (staleSelection 1200 5 cxC8).map (fun j => (j.id, j.attempt_count)) =
      [(4, 2), (1, 3)] ∧
    (findJob cxC8 4).map (fun j => j.user_operation) = some 0 ∧
    (findJob cxC8 1).map (fun j => j.user_operation) = some 0 ∧
    cxC9 = (reconcileInflight 1200 5 cxC8).fst ∧
    (findJob cxC9 4).map (fun j => j.status) = some JobStatus.retrying ∧
    (findOp cxC9 0).map (fun o => o.status) = some OpStatus.failed :=
  ⟨reachable_cxC8, by decide, by decide, by decide, rfl, by decide, by decide⟩

end BundlerGateway

namespace BundlerGateway

/-- The reconciler failure-escalation contract: every examined job whose
attempt_count has reached 3 becomes Failed with its existing error retained or
the default reason supplied, a failed event with payload {job_id, reason} is
appended for it, and — when no other examined job references the same
operation — its operation becomes Failed with that reason and completed_at
set. -/
def C5Concl (s : Store) (now : Int) (limit : Nat) : Prop :=
  ((reconcileInflight now limit s).fst.events =
    s.events ++ eventsFrom (reconEvent now) s.next_id (staleSelection now limit s)) ∧
  ∀ j ∈ staleSelection now limit s, 3 ≤ j.attempt_count →
    (∃ j2 ∈ (reconcileInflight now limit s).fst.jobs, j2.id = j.id ∧
      j2.status = JobStatus.failed ∧ j2.last_error = failReason j) ∧
    failReason j ≠ "" ∧
    (j.last_error ≠ "" → failReason j = j.last_error) ∧
    (j.last_error = "" → failReason j = "Dispatch attempts exceeded") ∧
    (∃ e ∈ eventsFrom (reconEvent now) s.next_id (staleSelection now limit s),
      e.event_type = "failed" ∧
      e.payload = [("job_id", toString j.id), ("reason", failReason j)] ∧
      e.user_operation = j.user_operation) ∧
    ((∀ x ∈ staleSelection now limit s, x.user_operation = j.user_operation → x = j) →
      ∀ o ∈ s.ops, o.id = j.user_operation →
        ∃ o2 ∈ (reconcileInflight now limit s).fst.ops, o2.id = o.id ∧
          o2.status = OpStatus.failed ∧ o2.failure_reason = failReason j ∧
          o2.completed_at = some now)

/-- C5 (amended): a stale Dispatching job that has exhausted its three
attempts is Failed with a non-empty reason and a failed event {job_id,
reason}; its operation becomes Failed with that reason and a set completed_at
provided no other examined sibling of the same operation is processed in the
same call (a later sibling can override the operation status back to Queued,
see C5_counterexample). -/
theorem C5_reconcile_failure (s : Store) (hwf : Wf s) (now : Int) (limit : Nat) :
    C5Concl s now limit := by
  have hLsub : ∀ j ∈ staleSelection now limit s, j ∈ s.jobs :=
    fun j hj => (staleSelection_mem hj).1
  have hnd : ((staleSelection now limit s).map (fun j => j.id)).Nodup :=
    staleSelection_idNodup hwf.2.1
  have hfold := recon_foldl now (staleSelection now limit s) s hnd
  constructor
  · rw [reconcileInflight_fst, hfold]
  · intro j hj hatt
    refine ⟨?_, failReason_ne_empty j, ?_, ?_, ?_, ?_⟩
    · rw [reconcileInflight_fst, hfold]
      dsimp only
      refine ⟨applyReconJobs now (staleSelection now limit s) j,
        List.mem_map.mpr ⟨j, hLsub j hj, rfl⟩, ?_⟩
      rw [applyReconJobs_eq_of_mem hwf.2.1 hLsub now (hLsub j hj) hj]
      unfold reconJobUpd
      rw [if_pos hatt]
      exact ⟨rfl, rfl, rfl⟩
    · intro hne
      unfold failReason
      rw [if_neg hne]
    · intro heq
      unfold failReason
      rw [if_pos heq]
    · obtain ⟨e, he, b2, hb2⟩ := eventsFrom_exists (reconEvent now) s.next_id hj
      refine ⟨e, he, ?_⟩
      rw [hb2]
      unfold reconEvent
      rw [if_pos hatt]
      exact ⟨rfl, rfl, rfl⟩
    · intro huniq o ho hoid
      rw [reconcileInflight_fst, hfold]
      dsimp only
      refine ⟨applyReconOps now (staleSelection now limit s) o,
        List.mem_map.mpr ⟨o, ho, rfl⟩, ?_⟩
      rw [applyReconOps_single now hnd hj huniq hoid]
      unfold reconOpUpd
      rw [if_pos hatt]
      refine ⟨markStatusOp_id now o OpStatus.failed (failReason j),
        markStatusOp_status now o OpStatus.failed (failReason j), ?_, ?_⟩
      · rw [markStatusOp_failure_reason, if_neg (failReason_ne_empty j)]
      · rw [markStatusOp_completed_at, if_pos (Or.inr (Or.inl rfl))]

/-- C5 witness: the failure contract applied to a concrete store whose single
stale job has exhausted its three attempts, with no sibling interference. -/
theorem C5_reconcile_failure_witness :
    Wf cxB6 ∧ C5Concl cxB6 3000 5 :=
  ⟨by decide, C5_reconcile_failure cxB6 (by decide) 3000 5⟩

/-- C5 counterexample: in the reachable store cxB8 the final reconcile
examines job 1 (attempt_count 3, older) and its sibling job 8 (attempt_count
1, newer) of the same operation; job 1 is failed first, but the later requeue
of job 8 leaves the operation Queued, not Failed. -/
theorem C5_counterexample :
    Reachable cxB8 ∧
    (staleSelection 3000 5 cxB8).map (fun j => (j.id, j.attempt_count)) =
      [(1, 3), (8, 1)] ∧
    (findJob cxB8 1).map (fun j => j.user_operation) = some 0 ∧
    (findJob cxB8 8).map (fun j => j.user_operation) = some 0 ∧
    cxB9 = (reconcileInflight 3000 5 cxB8).fst ∧
    (findJob cxB9 1).map (fun j => (j.status, j.last_error)) =
      some (JobStatus.failed, "Dispatch attempts exceeded") ∧
    (findOp cxB9 0).map (fun o => o.status) = some OpStatus.queued :=
  ⟨reachable_cxB8, by decide, by decide, by decide, rfl, by decide, by decide⟩

end BundlerGateway
